import Mathlib

/-!
# Sender / receiver over a mailbox with a two-semaphore handshake

A shallow embedding of `sender.c` and `receiver.c`.

* C character buffers are lists of byte values (`List Nat`); the string held by
  a buffer is the part before its first NUL byte (`cstr`).  A write into a
  buffer (`writeAt`) that runs past its end makes the list longer, so that an
  overflow shows as a change of length.
* The System V message queues are a table from queue id to the list of pending
  messages; the shared segment is a record of the status word and the bytes
  that follow it up to the end of the segment.
* The two `main` loops are a step function per process over a common state;
  a run is any interleaving of the steps of the two processes.  `sem_wait` on a
  zero count and `msgrcv` on an empty queue are steps that are not enabled.
* The setup of the two `main` functions is a function of the selector; the
  system calls whose outcome the environment decides are parameters (`Sys`),
  the named semaphores are a table from name to count.
* Left out: the diagnostics written to `stderr`, the timing code, the teardown
  after the loops, a failing `fopen`, and a `msgsnd` that blocks on a full queue
  (under the handshake the queue never holds more than one message).
-/

namespace Mailbox

/-! ## Constants -/

/-- The macro `SHM_TEXT_SIZE`. -/
def SHM_TEXT_SIZE : Nat := 1024

/-- The macro `EXIT_MARKER`, the characters of `"__GETOUT__"`; the end of the
list stands for the NUL that ends the literal. -/
def EXIT_MARKER : List Nat := [95, 95, 71, 69, 84, 79, 85, 84, 95, 95]

/-- The macro `SEM_SENDER_NAME`. -/
def SEM_SENDER_NAME : String := "/sem_sender_lab"

/-- The macro `SEM_RECEIVER_NAME`. -/
def SEM_RECEIVER_NAME : String := "/sem_receiver_lab"

/-- Modelled from the spec: `MSG_PASSING` is declared in the missing headers
`sender.h` / `receiver.h`; the usage text and the comment in `send` give 1. -/
def MSG_PASSING : Int := 1

/-- Modelled from the spec: `SHARED_MEM` is declared in the missing headers
`sender.h` / `receiver.h`; the usage text gives 2. -/
def SHARED_MEM : Int := 2

/-- Modelled from the spec: `sizeof(message.msgText)`; the type `message_t` is
declared in the missing headers, its payload has the fixed capacity 1024. -/
def MSG_TEXT_SIZE : Nat := 1024

/-- The size of the local array `line` in the sender's `main`:
`char line[SHM_TEXT_SIZE + 128]`. -/
def LINE_SIZE : Nat := SHM_TEXT_SIZE + 128

/-- The newline character. -/
def NL : Nat := 10

/-! ## C strings in byte buffers -/

/-- The string stored in a buffer: the bytes before the first NUL. -/
def cstr (b : List Nat) : List Nat := b.takeWhile (fun c => decide (c ≠ 0))

/-- The C function `strlen`. -/
def strlen (b : List Nat) : Nat := (cstr b).length

/-- The C function `strnlen`: the length of the string, looking at no more than
`n` bytes. -/
def strnlen (b : List Nat) (n : Nat) : Nat := (cstr (b.take n)).length

/-- The test `strcmp(a, b) == 0`. -/
def strcmp_eq (a b : List Nat) : Bool := decide (cstr a = cstr b)

/-- Overwrite `dst` from offset `off` on with `bytes`.  A write that runs past
the end of `dst` makes the result longer than `dst`. -/
def writeAt (dst : List Nat) (off : Nat) (bytes : List Nat) : List Nat :=
  dst.take off ++ bytes ++ dst.drop (off + bytes.length)

/-- The `n` bytes that `strncpy(dst, src, n)` stores: the string of `src` cut
to `n` characters, padded with NUL bytes up to `n`. -/
def strncpyBytes (src : List Nat) (n : Nat) : List Nat :=
  let s := cstr (src.take n)
  s ++ List.replicate (n - s.length) 0

/-- The C function `strncpy(dst, src, n)`, returning the new `dst`. -/
def strncpy (dst src : List Nat) (n : Nat) : List Nat :=
  writeAt dst 0 (strncpyBytes src n)

/-! ## Messages, mailboxes and the kernel objects behind them -/

/-- Modelled from the spec: the type `message_t` of the missing headers, a type
tag and a fixed-capacity text payload. -/
structure message_t where
  mType : Int
  msgText : List Nat
deriving DecidableEq, Repr

/-- Modelled from the spec: the type `mailbox_t` of the missing headers, a mode
flag and a union of a queue id and a region address (0 is the null pointer).
Only the member that belongs to the flag is ever read. -/
structure mailbox_t where
  flag : Int
  msqid : Int
  shm_addr : Int
deriving DecidableEq, Repr

/-- One message pending in a System V message queue. -/
structure QMsg where
  mtype : Int
  mtext : List Nat
deriving DecidableEq, Repr

/-- The shared segment as `send` and `receive` see it: `int *status = base`
and `char *buf = base + sizeof(int)`, the bytes up to the end of the
segment. -/
structure ShmRegion where
  status : Int
  buf : List Nat
deriving DecidableEq, Repr

/-- The kernel objects the transport uses. -/
structure World where
  queues : Int → Option (List QMsg)
  shm : ShmRegion

/-- Replace the queue with id `msqid`. -/
def setQueue (qs : Int → Option (List QMsg)) (msqid : Int) (q : List QMsg) :
    Int → Option (List QMsg) :=
  fun i => if i = msqid then some q else qs i

/-- The system call `msgsnd(msqid, &message, msgsz, 0)` with `mtype` and the
first `msgsz` bytes of the text: the return value and the new queue table.  It
fails on a queue that does not exist and on a type below 1. -/
def msgsnd (qs : Int → Option (List QMsg)) (msqid : Int) (mtype : Int)
    (mtext : List Nat) : Int × (Int → Option (List QMsg)) :=
  match qs msqid with
  | none => (-1, qs)
  | some q =>
    if mtype < 1 then (-1, qs)
    else (0, setQueue qs msqid (q ++ [⟨mtype, mtext⟩]))

/-- The result of `msgrcv(msqid, message_ptr, msgsz, 0, 0)`. -/
inductive MsgrcvResult where
  | blocked
  | failed
  | received (m : QMsg) (qs : Int → Option (List QMsg))

/-- The system call `msgrcv(msqid, message_ptr, msgsz, 0, 0)`: it takes the
oldest message of any type, blocks on an empty queue, and fails on a queue that
does not exist or when the oldest message is longer than `msgsz`. -/
def msgrcv (qs : Int → Option (List QMsg)) (msqid : Int) (msgsz : Nat) :
    MsgrcvResult :=
  match qs msqid with
  | none => .failed
  | some [] => .blocked
  | some (m :: q) =>
    if msgsz < m.mtext.length then .failed
    else .received m (setQueue qs msqid q)

/-- The part of `send` that fills the payload buffer of the shared segment:
`strncpy(buf, message.msgText, SHM_TEXT_SIZE-1); buf[SHM_TEXT_SIZE-1] = 0`. -/
def shm_copy (r : ShmRegion) (msgText : List Nat) : ShmRegion :=
  { r with buf := writeAt (strncpy r.buf msgText (SHM_TEXT_SIZE - 1)) (SHM_TEXT_SIZE - 1) [0] }

/-- The function `send` of `sender.c`. -/
def send (message : message_t) (mailbox : mailbox_t) (w : World) : World :=
  if mailbox.flag = MSG_PASSING then
    let msqid := mailbox.msqid
    if msqid < 0 then w
    else
      let send_len := strnlen message.msgText (MSG_TEXT_SIZE - 1) + 1
      { w with queues :=
          (msgsnd w.queues msqid message.mType (message.msgText.take send_len)).2 }
  else if mailbox.flag = SHARED_MEM then
    if mailbox.shm_addr = 0 then w
    else
      { w with shm :=
          { shm_copy w.shm message.msgText with
            status := if strcmp_eq message.msgText EXIT_MARKER then 2 else 1 } }
  else w

/-- The function `receive` of `receiver.c`: the new `*message_ptr` and the new
kernel objects, or `none` when the call blocks in `msgrcv`. -/
def receive (message : message_t) (mailbox : mailbox_t) (w : World) :
    Option (message_t × World) :=
  if mailbox.flag = MSG_PASSING then
    let msqid := mailbox.msqid
    if msqid < 0 then some (message, w)
    else
      match msgrcv w.queues msqid MSG_TEXT_SIZE with
      | .blocked => none
      | .failed => some (message, w)
      | .received m qs =>
        some ({ mType := m.mtype
                msgText := writeAt (writeAt message.msgText 0 m.mtext)
                  (MSG_TEXT_SIZE - 1) [0] },
              { w with queues := qs })
  else if mailbox.flag = SHARED_MEM then
    if mailbox.shm_addr = 0 then some (message, w)
    else
      some ({ message with
                msgText := writeAt (strncpy message.msgText w.shm.buf (MSG_TEXT_SIZE - 1))
                  (MSG_TEXT_SIZE - 1) [0] },
            { w with shm := { w.shm with status := 0 } })
  else some (message, w)

/-! ## The loops of the two `main` functions -/

/-- The characters one `fgets` call with room for `k` characters takes from the
stream, and the rest of the stream: it stops after a newline, at the end of the
file, or when the room is used up. -/
def fgetsChars : Nat → List Nat → List Nat × List Nat
  | 0, fp => ([], fp)
  | _ + 1, [] => ([], [])
  | k + 1, c :: fp =>
    if c = NL then ([c], fp)
    else ((c :: (fgetsChars k fp).1), (fgetsChars k fp).2)

/-- The library call `fgets(line, n, fp)` on the unread part `fp` of the file:
`none` at the end of the file, otherwise the new buffer (the characters read and
a NUL) and the part that stays unread. -/
def fgets (line : List Nat) (n : Nat) (fp : List Nat) : Option (List Nat × List Nat) :=
  match fp with
  | [] => none
  | _ :: _ =>
    some (writeAt line 0 ((fgetsChars (n - 1) fp).1 ++ [0]), (fgetsChars (n - 1) fp).2)

/-- The statements `size_t ln = strlen(line);
if (ln > 0 && line[ln-1] == '\n') line[ln-1] = '\0';` of the sender. -/
def stripNewline (line : List Nat) : List Nat :=
  let ln := strlen line
  if 0 < ln ∧ line.getD (ln - 1) 0 = NL then writeAt line (ln - 1) [0] else line

/-- The statements `strncpy(msg.msgText, src, sizeof(msg.msgText)-1);
msg.msgText[sizeof(msg.msgText)-1] = '\0';` of the sender. -/
def setText (msg : message_t) (src : List Nat) : message_t :=
  { msg with
    msgText := writeAt (strncpy msg.msgText src (MSG_TEXT_SIZE - 1)) (MSG_TEXT_SIZE - 1) [0] }

/-- The preparation of one message in the sender's loop: `fgets`, the newline
strip and the copy into `msg.msgText`.  `none` at the end of the file, otherwise
the new `line`, the new `msg` and the unread rest of the file. -/
def prepare (line : List Nat) (msg : message_t) (fp : List Nat) :
    Option (List Nat × message_t × List Nat) :=
  match fgets line LINE_SIZE fp with
  | none => none
  | some (line, fp) =>
    let line := stripNewline line
    some (line, setText msg line, fp)

/-- What a process prints on its standard output. -/
inductive Output where
  /-- The sender: `Sending message:` and the text. -/
  | sending (text : List Nat)
  /-- The sender: `End of input file! exit!`. -/
  | endOfInput
  /-- The receiver: `Receiving message:` and the text. -/
  | receiving (text : List Nat)
  /-- The receiver: `Sender exit!`. -/
  | senderExit
deriving DecidableEq, Repr

/-- Where the sender stands in its loop (`sender.c`, lines 166 to 203). -/
inductive SenderPc where
  /-- Before `fgets` and the preparation of the message. -/
  | read
  /-- Before `sem_wait(sem_sender)` in the loop. -/
  | acquire
  /-- Before `send` and the confirmation line in the loop. -/
  | put
  /-- Before `sem_post(sem_receiver)` in the loop. -/
  | release
  /-- After the end of the file, before `sem_wait(sem_sender)`. -/
  | exitAcquire
  /-- Before the exit marker is copied and sent. -/
  | exitPut
  /-- Before the last `sem_post(sem_receiver)`. -/
  | exitRelease
  /-- After the protocol. -/
  | finished
deriving DecidableEq, Repr

/-- Where the receiver stands in its loop (`receiver.c`, lines 147 to 168). -/
inductive ReceiverPc where
  /-- Before `sem_wait(sem_receiver)`. -/
  | acquire
  /-- Before `receive`. -/
  | get
  /-- Before the comparison with the exit marker and the printed line. -/
  | check
  /-- Before `sem_post(sem_sender)` of the branch that goes on. -/
  | release
  /-- Before `sem_post(sem_sender)` of the branch that leaves the loop. -/
  | exitRelease
  /-- After the loop. -/
  | finished
deriving DecidableEq, Repr

/-- The two semaphores, the kernel objects, and the local variables of the two
processes. -/
structure State where
  sem_sender : Nat
  sem_receiver : Nat
  world : World
  spc : SenderPc
  smailbox : mailbox_t
  fp : List Nat
  line : List Nat
  msg : message_t
  sout : List Output
  rpc : ReceiverPc
  rmailbox : mailbox_t
  recv : message_t
  rout : List Output

/-- One step of the sender; `none` when it is blocked or has finished. -/
def sender_step (s : State) : Option State :=
  match s.spc with
  | .read =>
    match prepare s.line s.msg s.fp with
    | none => some { s with spc := .exitAcquire }
    | some (line, msg, fp) =>
      some { s with fp := fp, line := line, msg := msg, spc := .acquire }
  | .acquire =>
    if 0 < s.sem_sender then some { s with sem_sender := s.sem_sender - 1, spc := .put }
    else none
  | .put =>
    some { s with
      world := send s.msg s.smailbox s.world
      sout := s.sout ++ [.sending (cstr s.msg.msgText)]
      spc := .release }
  | .release => some { s with sem_receiver := s.sem_receiver + 1, spc := .read }
  | .exitAcquire =>
    if 0 < s.sem_sender then some { s with sem_sender := s.sem_sender - 1, spc := .exitPut }
    else none
  | .exitPut =>
    let msg := setText s.msg EXIT_MARKER
    some { s with
      msg := msg
      world := send msg s.smailbox s.world
      sout := s.sout ++ [.endOfInput]
      spc := .exitRelease }
  | .exitRelease => some { s with sem_receiver := s.sem_receiver + 1, spc := .finished }
  | .finished => none

/-- One step of the receiver; `none` when it is blocked or has finished. -/
def receiver_step (s : State) : Option State :=
  match s.rpc with
  | .acquire =>
    if 0 < s.sem_receiver then some { s with sem_receiver := s.sem_receiver - 1, rpc := .get }
    else none
  | .get =>
    match receive s.recv s.rmailbox s.world with
    | none => none
    | some (recv, w) => some { s with recv := recv, world := w, rpc := .check }
  | .check =>
    if strcmp_eq s.recv.msgText EXIT_MARKER then
      some { s with rout := s.rout ++ [.senderExit], rpc := .exitRelease }
    else
      some { s with rout := s.rout ++ [.receiving (cstr s.recv.msgText)], rpc := .release }
  | .release => some { s with sem_sender := s.sem_sender + 1, rpc := .acquire }
  | .exitRelease => some { s with sem_sender := s.sem_sender + 1, rpc := .finished }
  | .finished => none

/-- The two processes. -/
inductive Proc where
  | sender
  | receiver
deriving DecidableEq, Repr

/-- One step of the process `p`. -/
def step (p : Proc) (s : State) : Option State :=
  match p with
  | .sender => sender_step s
  | .receiver => receiver_step s

/-- Some process takes a step from `s` to `t`. -/
def Step (s t : State) : Prop := ∃ p, step p s = some t

/-- The state `t` is reached from `s` by some interleaving of steps. -/
def Reachable (s t : State) : Prop := Relation.ReflTransGen Step s t

/-- No process can take a step. -/
def Terminal (s : State) : Prop := ∀ p, step p s = none

/-- Run the processes in the order given by a schedule; `none` when a scheduled
process cannot step. -/
def runSchedule : List Proc → State → Option State
  | [], s => some s
  | p :: ps, s => (step p s).bind (runSchedule ps)

/-- The state when both processes are at the top of their loops: the counts of
the semaphores as created, `msg.mType = 1` and `recv.mType = 0`. -/
def initState (smailbox rmailbox : mailbox_t) (w : World) (file : List Nat)
    (line msgText recvText : List Nat) : State :=
  { sem_sender := 1
    sem_receiver := 0
    world := w
    spc := .read
    smailbox := smailbox
    fp := file
    line := line
    msg := { mType := 1, msgText := msgText }
    sout := []
    rpc := .acquire
    rmailbox := rmailbox
    recv := { mType := 0, msgText := recvText }
    rout := [] }

/-- Is the sender between a `sem_wait(sem_sender)` and the `sem_post` that
follows it: 1 if so, 0 if not. -/
def senderActive : SenderPc → Nat
  | .put | .release | .exitPut | .exitRelease => 1
  | .read | .acquire | .exitAcquire | .finished => 0

/-- Is the receiver between its `sem_wait(sem_receiver)` and the `sem_post`
that follows it: 1 if so, 0 if not. -/
def receiverActive : ReceiverPc → Nat
  | .get | .check | .release | .exitRelease => 1
  | .acquire | .finished => 0

/-- The status word of the shared segment. -/
def status (s : State) : Int := s.world.shm.status

/-- Number of processes between their `sem_wait` and their `sem_post`. -/
def active (s : State) : Nat := senderActive s.spc + receiverActive s.rpc

/-- One cycle of the receiver's loop with no step of the sender in between:
`sem_wait(sem_receiver)`, `receive`, the comparison with the printed line, and
the `sem_post(sem_sender)` of the branch taken. -/
def receiver_cycle (s : State) : Option State :=
  runSchedule [.receiver, .receiver, .receiver, .receiver] s

/-! ## The setup in the two `main` functions -/

/-- The named semaphores that exist, with their counts. -/
abbrev Sems := String → Option Nat

/-- The error number `EEXIST`. -/
def EEXIST : Int := 17

/-- The error number `ENOENT`. -/
def ENOENT : Int := 2

/-- Set the count of the semaphore `name`. -/
def setSem (sems : Sems) (name : String) (value : Nat) : Sems :=
  fun n => if n = name then some value else sems n

/-- The call `sem_open(name, O_CREAT | O_EXCL, 0600, value)`: the handle (`none`
for `SEM_FAILED`), `errno`, and the semaphores afterwards.  A handle is the name
of the semaphore it stands for. -/
def sem_open_excl (name : String) (value : Nat) (sems : Sems) : Option String × Int × Sems :=
  match sems name with
  | some _ => (none, EEXIST, sems)
  | none => (some name, 0, setSem sems name value)

/-- The call `sem_open(name, 0)`. -/
def sem_open_existing (name : String) (sems : Sems) : Option String × Int × Sems :=
  match sems name with
  | some _ => (some name, 0, sems)
  | none => (none, ENOENT, sems)

/-- The function `open_or_create_sem` of both files: the handle (`none` for
`SEM_FAILED`), `*is_creator`, and the semaphores afterwards. -/
def open_or_create_sem (name : String) (initial : Nat) (sems : Sems) :
    Option String × Int × Sems :=
  match sem_open_excl name initial sems with
  | (some s, _, sems1) => (some s, 1, sems1)
  | (none, errno, sems1) =>
    if errno ≠ EEXIST then (none, 0, sems1)
    else
      match sem_open_existing name sems1 with
      | (some s, _, sems2) => (some s, 0, sems2)
      | (none, _, sems2) => (none, 0, sems2)

/-- The system calls of the setup whose outcome the environment decides:
`ftok("/tmp", proj)` gives a key, `msgget(key, IPC_CREAT | 0666)` a queue id,
`shmget(key, size, IPC_CREAT | 0666)` a segment id and `shmat(shmid, NULL, 0)`
an address; each gives -1 when it fails. -/
structure Sys where
  ftok : Int → Int
  msgget : Int → World → Int × World
  shmget : Int → Nat → World → Int × World
  shmat : Int → Int

/-- How the setup of a `main` ends: with `return code`, or ready for the loop
with the mailbox filled in. -/
inductive SetupResult where
  | returned (code : Int) (w : World) (sems : Sems)
  | ready (mailbox : mailbox_t) (w : World) (sems : Sems)

/-- The size of an `int`. -/
def SIZEOF_INT : Nat := 4

/-- The sender opens the two semaphores (`sender.c`, lines 135 to 142). -/
def sender_open_sems (mailbox : mailbox_t) (w : World) (sems : Sems) : SetupResult :=
  match open_or_create_sem SEM_SENDER_NAME 1 sems with
  | (none, _, sems1) => .returned 1 w sems1
  | (some _, _, sems1) =>
    match open_or_create_sem SEM_RECEIVER_NAME 0 sems1 with
    | (none, _, sems2) => .returned 1 w sems2
    | (some _, _, sems2) => .ready mailbox w sems2

/-- The receiver opens the two semaphores (`receiver.c`, lines 121 to 129). -/
def receiver_open_sems (mailbox : mailbox_t) (w : World) (sems : Sems) : SetupResult :=
  match open_or_create_sem SEM_SENDER_NAME 1 sems with
  | (none, _, sems1) => .returned 1 w sems1
  | (some _, _, sems1) =>
    match open_or_create_sem SEM_RECEIVER_NAME 0 sems1 with
    | (none, _, sems2) => .returned 1 w sems2
    | (some _, _, sems2) => .ready mailbox w sems2

/-- The sender's `main` from `atoi(argv[1])` to the opened semaphores
(`sender.c`, lines 94 to 142), for the selector `mech`. -/
def sender_setup (sys : Sys) (mech : Int) (w : World) (sems : Sems) : SetupResult :=
  let mailbox : mailbox_t := { flag := mech, msqid := 0, shm_addr := 0 }
  if mech = MSG_PASSING then
    let key := sys.ftok 0x66
    if key = -1 then .returned 1 w sems
    else
      match sys.msgget key w with
      | (msqid, w1) =>
        if msqid = -1 then .returned 1 w1 sems
        else sender_open_sems { mailbox with msqid := msqid } w1 sems
  else if mech = SHARED_MEM then
    let key := sys.ftok 0x55
    if key = -1 then .returned 1 w sems
    else
      match sys.shmget key (SIZEOF_INT + SHM_TEXT_SIZE) w with
      | (shmid, w1) =>
        if shmid = -1 then .returned 1 w1 sems
        else
          let shmaddr := sys.shmat shmid
          if shmaddr = -1 then .returned 1 w1 sems
          else
            sender_open_sems { mailbox with shm_addr := shmaddr }
              { w1 with shm := { w1.shm with status := 0 } } sems
  else .returned 0 w sems

/-- The receiver's `main` from `atoi(argv[1])` to the opened semaphores
(`receiver.c`, lines 91 to 129), for the selector `mech`. -/
def receiver_setup (sys : Sys) (mech : Int) (w : World) (sems : Sems) : SetupResult :=
  let mailbox : mailbox_t := { flag := mech, msqid := 0, shm_addr := 0 }
  if mech = MSG_PASSING then
    let key := sys.ftok 0x66
    if key = -1 then .returned 1 w sems
    else
      match sys.msgget key w with
      | (msqid, w1) =>
        if msqid = -1 then .returned 1 w1 sems
        else receiver_open_sems { mailbox with msqid := msqid } w1 sems
  else if mech = SHARED_MEM then
    let key := sys.ftok 0x55
    if key = -1 then .returned 1 w sems
    else
      match sys.shmget key (SIZEOF_INT + SHM_TEXT_SIZE) w with
      | (shmid, w1) =>
        if shmid = -1 then .returned 1 w1 sems
        else
          let shmaddr := sys.shmat shmid
          if shmaddr = -1 then .returned 1 w1 sems
          else receiver_open_sems { mailbox with shm_addr := shmaddr } w1 sems
  else .returned 1 w sems

/-! ## Input files and what the receiver is to print -/

/-- The bytes of a text file with the given lines: a newline after every line,
after the last one only when `finalNewline` is set. -/
def fileOf (finalNewline : Bool) : List (List Nat) → List Nat
  | [] => []
  | [l] => if finalNewline then l ++ [NL] else l
  | l :: l' :: ls => l ++ NL :: fileOf finalNewline (l' :: ls)

/-- The texts the sender passes to `send` for a file of lines that each fit the
line buffer: every line cut to the payload capacity, then the exit marker. -/
def texts (lines : List (List Nat)) : List (List Nat) :=
  lines.map (fun l => l.take (MSG_TEXT_SIZE - 1)) ++ [EXIT_MARKER]

/-- The output of the receiver for these lines: one `Receiving message` per
line with the line cut to the payload capacity, then `Sender exit!`. -/
def expected (lines : List (List Nat)) : List Output :=
  lines.map (fun l => Output.receiving (l.take (MSG_TEXT_SIZE - 1))) ++ [Output.senderExit]

/-- The output the claim of the specification asks for: one `Receiving message`
per line with the whole line, then `Sender exit!`. -/
def expectedVerbatim (lines : List (List Nat)) : List Output :=
  lines.map (fun l => Output.receiving l) ++ [Output.senderExit]

/-- A line of text that one `fgets` call reads whole and that is not the exit
marker: no NUL, no newline inside, at most 1150 characters. -/
def GoodLine (l : List Nat) : Prop :=
  (∀ c ∈ l, c ≠ 0) ∧ (∀ c ∈ l, c ≠ NL) ∧ l.length < LINE_SIZE - 1 ∧ l ≠ EXIT_MARKER

/-- A file of good lines; a last line without a newline is not empty. -/
def GoodFile (finalNewline : Bool) (lines : List (List Nat)) : Prop :=
  (∀ l ∈ lines, GoodLine l) ∧
    (finalNewline = false → ∀ l, lines.getLast? = some l → l ≠ [])

/-- A bound on the number of steps the sender still takes. -/
def senderFuel (s : State) : Nat :=
  match s.spc with
  | .finished => 0
  | .exitRelease => 1
  | .exitPut => 2
  | .exitAcquire => 3
  | .read => 4 + 4 * s.fp.length
  | .release => 4 + 4 * s.fp.length + 1
  | .put => 4 + 4 * s.fp.length + 2
  | .acquire => 4 + 4 * s.fp.length + 3

/-- A bound on the number of steps the receiver takes before it waits again. -/
def receiverFuel : ReceiverPc → Nat
  | .get => 3
  | .check => 2
  | .release => 1
  | .exitRelease => 1
  | .acquire => 0
  | .finished => 0

/-- A quantity that every step makes smaller. -/
def potential (s : State) : Nat :=
  5 * senderFuel s + 4 * s.sem_receiver + receiverFuel s.rpc

/-- Every run from `s` is finite. -/
def Terminates (s : State) : Prop := Acc (fun t u => Step u t) s

/-- A complete run from `s0` ends with the receiver's output `out`. -/
def Completes (s0 : State) (out : List Output) : Prop :=
  ∃ s, Reachable s0 s ∧ Terminal s ∧ s.rout = out

/-- The changes of the status word that the specification allows: 0 to 1 by
the sender, 1 to 0 by the receiver, 1 to 2 by the sender. -/
def ClaimedChange (p : Proc) (a b : Int) : Prop :=
  (p = .sender ∧ a = 0 ∧ b = 1) ∨ (p = .receiver ∧ a = 1 ∧ b = 0) ∨
    (p = .sender ∧ a = 1 ∧ b = 2)

/-- The changes of the status word that the code makes: 0 to 1 and 0 to 2 by
the sender, 1 to 0 and 2 to 0 by the receiver. -/
def ActualChange (p : Proc) (a b : Int) : Prop :=
  (p = .sender ∧ a = 0 ∧ b = 1) ∨ (p = .sender ∧ a = 0 ∧ b = 2) ∨
    (p = .receiver ∧ a = 1 ∧ b = 0) ∨ (p = .receiver ∧ a = 2 ∧ b = 0)

/-! ## Concrete inputs -/

/-- A mailbox in shared-memory mode with a region attached. -/
def shmBox : mailbox_t := { flag := SHARED_MEM, msqid := 0, shm_addr := 4096 }

/-- A mailbox in queue mode with the queue id 0. -/
def queueBox : mailbox_t := { flag := MSG_PASSING, msqid := 0, shm_addr := 0 }

/-- Kernel objects at the start: the queue 0 exists and is empty, the segment
is zero-filled. -/
def freshWorld : World :=
  { queues := fun i => if i = 0 then some [] else none
    shm := { status := 0, buf := List.replicate SHM_TEXT_SIZE 0 } }

/-- The start of the loops on a file, both processes with the mailbox `mb`,
with zero-filled local buffers. -/
def startOn (mb : mailbox_t) (file : List Nat) : State :=
  initState mb mb freshWorld file (List.replicate LINE_SIZE 0)
    (List.replicate MSG_TEXT_SIZE 0) (List.replicate MSG_TEXT_SIZE 0)

/-- A message buffer of the sender that holds the text `hi`. -/
def hiMessage : message_t := { mType := 1, msgText := [104, 105] ++ List.replicate 1022 0 }

/-- A zero-filled message buffer of the receiver. -/
def blankMessage : message_t := { mType := 0, msgText := List.replicate 1024 0 }

/-- The mailbox as `main` builds it before the setup, in queue mode:
`memset(&mailbox, 0, sizeof(mailbox)); mailbox.flag = 1`. -/
def zeroQueueBox : mailbox_t := { flag := MSG_PASSING, msqid := 0, shm_addr := 0 }

/-- The mailbox as `main` builds it before the setup, in shared-memory mode:
`memset(&mailbox, 0, sizeof(mailbox)); mailbox.flag = 2`. -/
def zeroShmBox : mailbox_t := { flag := SHARED_MEM, msqid := 0, shm_addr := 0 }

/-- Kernel objects in which the queue 0 holds one message with the text `hi`. -/
def pendingWorld : World :=
  { queues := fun i => if i = 0 then some [⟨1, [104, 105, 0]⟩] else none
    shm := { status := 0, buf := List.replicate SHM_TEXT_SIZE 0 } }

/-- No named semaphore exists. -/
def noSems : Sems := fun _ => none

/-- The schedule of a run of `n` texts in which the sender and the receiver take
turns: four steps of the sender, then four of the receiver, `n` times. -/
def alternate : Nat → List Proc
  | 0 => []
  | n + 1 =>
    [.sender, .sender, .sender, .sender, .receiver, .receiver, .receiver, .receiver] ++
      alternate n

/-! ## States of the transport -/

/-- The mailbox `mb` is set up for the mechanism `mech`: in queue mode it holds
the queue id `q`, which is not negative; in shared-memory mode its address is
not null. -/
def MailboxReady (mech q : Int) (mb : mailbox_t) : Prop :=
  mb.flag = mech ∧ (mech = MSG_PASSING → mb.msqid = q ∧ 0 ≤ q) ∧
    (mech = SHARED_MEM → mb.shm_addr ≠ 0)

/-- No message is pending: in queue mode the queue `q` exists and is empty. -/
def TransportEmpty (mech q : Int) (w : World) : Prop :=
  mech = MSG_PASSING → w.queues q = some []

/-- The transport holds exactly the text `t`: in queue mode the queue `q` has
the one message `t` with its NUL, in shared-memory mode the buffer holds the
string `t`. -/
def TransportHolds (mech q : Int) (w : World) (t : List Nat) : Prop :=
  t.length ≤ MSG_TEXT_SIZE - 1 ∧ (∀ c ∈ t, c ≠ 0) ∧
    (mech = MSG_PASSING → w.queues q = some [⟨1, t ++ [0]⟩]) ∧
    (mech = SHARED_MEM → cstr w.shm.buf = t)

/-! ## The status word in shared-memory mode -/

/-- Both mailboxes are in shared-memory mode with a region attached. -/
def SharedMode (s : State) : Prop :=
  s.smailbox.flag = SHARED_MEM ∧ s.smailbox.shm_addr ≠ 0 ∧
    s.rmailbox.flag = SHARED_MEM ∧ s.rmailbox.shm_addr ≠ 0

/-- The status word follows the turn: it is 0 while the turn is the sender's and
the slot is not yet written, 1 or 2 from the sender's write to the receiver's
read, and 0 again after the read. -/
def StatusInv (s : State) : Prop :=
  SharedMode s ∧
  s.sem_sender + s.sem_receiver + active s = 1 ∧
  (0 < s.sem_sender → status s = 0) ∧
  (s.spc = .put ∨ s.spc = .exitPut → status s = 0) ∧
  (s.spc = .release ∨ s.spc = .exitRelease → status s = 1 ∨ status s = 2) ∧
  (0 < s.sem_receiver → status s = 1 ∨ status s = 2) ∧
  (s.rpc = .get → status s = 1 ∨ status s = 2) ∧
  (s.rpc = .check ∨ s.rpc = .release ∨ s.rpc = .exitRelease → status s = 0)

/-! ## Delivery: the invariant of a run on a file of good lines -/

/-- The transport holds the text number `k` of the run. -/
def Pending (mech q : Int) (lines : List (List Nat)) (w : World) (k : Nat) : Prop :=
  ∃ t, (texts lines)[k]? = some t ∧ TransportHolds mech q w t

/-- The state of a run in which the sender has read `i` lines and sent `j`
texts and the receiver has printed for `k` texts. -/
structure DeliveryInv (mech q : Int) (b : Bool) (lines : List (List Nat)) (s : State)
    (i j k : Nat) : Prop where
  smb : MailboxReady mech q s.smailbox
  rmb : MailboxReady mech q s.rmailbox
  mty : s.msg.mType = 1
  mlen : s.msg.msgText.length = MSG_TEXT_SIZE
  token : s.sem_sender + s.sem_receiver + active s = 1
  hi : i ≤ lines.length
  hfp : s.fp = fileOf b (lines.drop i)
  hout : s.rout = (expected lines).take k
  sRead : s.spc = .read → j = i
  sMsg : s.spc = .acquire ∨ s.spc = .put →
    i = j + 1 ∧ (texts lines)[j]? = some (cstr s.msg.msgText)
  sRel : s.spc = .release → j = i
  sExit : s.spc = .exitAcquire ∨ s.spc = .exitPut → i = lines.length ∧ j = lines.length
  sFin : s.spc = .exitRelease ∨ s.spc = .finished → i = lines.length ∧ j = lines.length + 1
  tS : 0 < s.sem_sender → k = j ∧ TransportEmpty mech q s.world
  tPut : s.spc = .put ∨ s.spc = .exitPut → k = j ∧ TransportEmpty mech q s.world
  tRel : s.spc = .release ∨ s.spc = .exitRelease → j = k + 1 ∧ Pending mech q lines s.world k
  tR : 0 < s.sem_receiver → j = k + 1 ∧ Pending mech q lines s.world k
  rGet : s.rpc = .get → j = k + 1 ∧ Pending mech q lines s.world k
  rCheck : s.rpc = .check → j = k + 1 ∧ TransportEmpty mech q s.world ∧
    (texts lines)[k]? = some (cstr s.recv.msgText)
  rRel : s.rpc = .release → k = j ∧ k ≤ lines.length ∧ TransportEmpty mech q s.world
  rExit : s.rpc = .exitRelease → k = j ∧ k = lines.length + 1 ∧ TransportEmpty mech q s.world
  rAcq : s.rpc = .acquire → k ≤ lines.length
  rFin : s.rpc = .finished → k = lines.length + 1

/-! ## The transport at the sender's `send` -/

/-- One text is pending: in queue mode the queue `q` holds exactly one message,
which fits the receiver's buffer. -/
def OnePending (mech q : Int) (w : World) : Prop :=
  mech = MSG_PASSING → ∃ m, w.queues q = some [m] ∧ m.mtext.length ≤ MSG_TEXT_SIZE

/-- The transport follows the turn: no text is pending while the turn is the
sender's and until its `send`, one text is pending from the `send` to the
receiver's `receive`, and none after it. -/
def EmptyInv (mech q : Int) (s : State) : Prop :=
  (MailboxReady mech q s.smailbox ∧ MailboxReady mech q s.rmailbox ∧ s.msg.mType = 1) ∧
  s.sem_sender + s.sem_receiver + active s = 1 ∧
  (0 < s.sem_sender → TransportEmpty mech q s.world) ∧
  (s.spc = .put ∨ s.spc = .exitPut → TransportEmpty mech q s.world) ∧
  (s.spc = .release ∨ s.spc = .exitRelease → OnePending mech q s.world) ∧
  (0 < s.sem_receiver → OnePending mech q s.world) ∧
  (s.rpc = .get → OnePending mech q s.world) ∧
  (s.rpc = .check ∨ s.rpc = .release ∨ s.rpc = .exitRelease → TransportEmpty mech q s.world)

/-! ## One cycle of the receiver, step by step -/

/-- The four steps of a cycle of the receiver from `s` to `t` and what each does
to the counts.  The `sem_wait(sem_receiver)` takes `sem_receiver` down by one
and leaves `sem_sender`; the `receive` that follows it, and then the comparison
with the printed line, leave `sem_sender` as it was at the start of the cycle;
only the fourth step, the `sem_post(sem_sender)` of the branch taken (the exit
branch after `Sender exit!`, the other branch after the printed text), raises
`sem_sender`, by one, and changes nothing else but the place in the loop. -/
def CycleTrace (s t : State) : Prop :=
  ∃ s1 s2 s3,
    receiver_step s = some s1 ∧ receiver_step s1 = some s2 ∧
    receiver_step s2 = some s3 ∧ receiver_step s3 = some t ∧
    (s1.rpc = .get ∧ s1.sem_receiver + 1 = s.sem_receiver ∧ s1.sem_sender = s.sem_sender) ∧
    (s2.rpc = .check ∧ receive s.recv s.rmailbox s.world = some (s2.recv, s2.world) ∧
      s2.sem_sender = s.sem_sender ∧ s2.sem_receiver = s1.sem_receiver) ∧
    (s3.sem_sender = s.sem_sender ∧ s3.sem_receiver = s1.sem_receiver ∧ s3.recv = s2.recv ∧
      s3.world = s2.world ∧
      ((cstr s2.recv.msgText = EXIT_MARKER ∧ s3.rpc = .exitRelease ∧
          s3.rout = s.rout ++ [Output.senderExit]) ∨
        (cstr s2.recv.msgText ≠ EXIT_MARKER ∧ s3.rpc = .release ∧
          s3.rout = s.rout ++ [Output.receiving (cstr s2.recv.msgText)]))) ∧
    (t.sem_sender = s3.sem_sender + 1 ∧ t.sem_receiver = s3.sem_receiver ∧
      t.rout = s3.rout ∧ t.recv = s3.recv ∧ t.world = s3.world ∧
      ((s3.rpc = .exitRelease ∧ t.rpc = .finished) ∨ (s3.rpc = .release ∧ t.rpc = .acquire)))

/-- The number of `sem_post(sem_sender)` calls in the receiver's step from the
place `pc`: one from the two places before a `sem_post`, none from the others. -/
def postsAt : ReceiverPc → Nat
  | .release | .exitRelease => 1
  | .acquire | .get | .check | .finished => 0

/-! ## Facts about strings in buffers -/

theorem cstr_nil : cstr [] = [] := rfl

theorem cstr_cons_zero (b : List Nat) : cstr (0 :: b) = [] := by
  simp [cstr]

theorem cstr_cons_ne (c : Nat) (b : List Nat) (h : c ≠ 0) : cstr (c :: b) = c :: cstr b := by
  simp [cstr, h]

theorem cstr_no_nul (b : List Nat) : ∀ c ∈ cstr b, c ≠ 0 := by
  intro c hc
  have := List.mem_takeWhile_imp hc
  simpa using this

theorem cstr_append_zero (a b : List Nat) (h : ∀ c ∈ a, c ≠ 0) : cstr (a ++ 0 :: b) = a := by
  induction a with
  | nil => simp [cstr]
  | cons c a ih =>
    have hc : c ≠ 0 := h c (by simp)
    have ha : ∀ d ∈ a, d ≠ 0 := fun d hd => h d (by simp [hd])
    simp [cstr_cons_ne _ _ hc, ih ha]

theorem cstr_of_no_nul (a : List Nat) (h : ∀ c ∈ a, c ≠ 0) : cstr a = a := by
  induction a with
  | nil => rfl
  | cons c a ih =>
    have hc : c ≠ 0 := h c (by simp)
    have ha : ∀ d ∈ a, d ≠ 0 := fun d hd => h d (by simp [hd])
    simp [cstr_cons_ne _ _ hc, ih ha]

theorem cstr_idem (b : List Nat) : cstr (cstr b) = cstr b :=
  cstr_of_no_nul _ (cstr_no_nul b)

theorem cstr_take (b : List Nat) (n : Nat) : cstr (b.take n) = (cstr b).take n := by
  induction b generalizing n with
  | nil => simp [cstr]
  | cons c b ih =>
    cases n with
    | zero => simp [cstr]
    | succ n =>
      by_cases hc : c = 0
      · subst hc; simp [cstr_cons_zero]
      · simp [cstr_cons_ne _ _ hc, ih]

theorem cstr_length_le (b : List Nat) : (cstr b).length ≤ b.length := by
  unfold cstr
  exact (List.takeWhile_sublist _).length_le

theorem mem_take_ne_zero (b : List Nat) (n : Nat) : ∀ c ∈ (cstr b).take n, c ≠ 0 :=
  fun c hc => cstr_no_nul b c (List.mem_of_mem_take hc)

theorem strncpyBytes_eq (src : List Nat) (n : Nat) :
    strncpyBytes src n = (cstr src).take n ++ List.replicate (n - ((cstr src).take n).length) 0 := by
  simp [strncpyBytes, cstr_take]

theorem strncpyBytes_length (src : List Nat) (n : Nat) : (strncpyBytes src n).length = n := by
  rw [strncpyBytes_eq]
  simp

theorem writeAt_length (dst : List Nat) (off : Nat) (bytes : List Nat)
    (h : off + bytes.length ≤ dst.length) : (writeAt dst off bytes).length = dst.length := by
  simp [writeAt]
  omega

/-- The closed form of `strncpy(dst, src, n); dst[n] = 0` on a buffer with more
than `n` bytes. -/
theorem terminated_copy (dst src : List Nat) (n : Nat) :
    writeAt (strncpy dst src n) n [0] = strncpyBytes src n ++ 0 :: dst.drop (n + 1) := by
  have hl := strncpyBytes_length src n
  have h1 : strncpy dst src n = strncpyBytes src n ++ dst.drop n := by
    simp [strncpy, writeAt, hl]
  rw [h1]
  unfold writeAt
  rw [List.take_append_of_le_length (by omega), List.take_of_length_le (by omega)]
  rw [List.drop_append_eq_append_drop, List.drop_of_length_le (by simp [hl])]
  simp [hl]

theorem cstr_strncpyBytes_append (src rest : List Nat) (n : Nat) :
    cstr (strncpyBytes src n ++ 0 :: rest) = (cstr src).take n := by
  rw [strncpyBytes_eq]
  cases hk : n - ((cstr src).take n).length with
  | zero => simp [cstr_append_zero _ _ (mem_take_ne_zero src n)]
  | succ k =>
    rw [List.replicate_succ, List.append_assoc, List.cons_append]
    exact cstr_append_zero _ _ (mem_take_ne_zero src n)

theorem cstr_terminated_copy (dst src : List Nat) (n : Nat) :
    cstr (writeAt (strncpy dst src n) n [0]) = (cstr src).take n := by
  rw [terminated_copy dst src n, cstr_strncpyBytes_append]

theorem terminated_copy_length (dst src : List Nat) (n : Nat) (h : n < dst.length) :
    (writeAt (strncpy dst src n) n [0]).length = dst.length := by
  rw [terminated_copy dst src n]
  simp [strncpyBytes_length]
  omega

theorem cstr_append_zero_left (a b : List Nat) : cstr (a ++ 0 :: b) = cstr a := by
  induction a with
  | nil => simp [cstr]
  | cons c a ih =>
    by_cases hc : c = 0
    · subst hc; simp [cstr_cons_zero]
    · simp [cstr_cons_ne _ _ hc, ih]

theorem cstr_writeAt_zero (x : List Nat) (n : Nat) :
    cstr (writeAt x n [0]) = (cstr x).take n := by
  simp only [writeAt, List.append_assoc, List.singleton_append]
  rw [cstr_append_zero_left, cstr_take]

theorem cstr_writeAt_string (dst a : List Nat) : cstr (writeAt dst 0 (a ++ [0])) = cstr a := by
  simp only [writeAt, List.take_zero, List.nil_append, List.append_assoc, List.singleton_append]
  rw [cstr_append_zero_left]

theorem cstr_setText (msg : message_t) (src : List Nat) :
    cstr (setText msg src).msgText = (cstr src).take (MSG_TEXT_SIZE - 1) := by
  simp only [setText]
  exact cstr_terminated_copy _ _ _

theorem setText_mType (msg : message_t) (src : List Nat) :
    (setText msg src).mType = msg.mType := rfl

theorem setText_length (msg : message_t) (src : List Nat)
    (h : msg.msgText.length = MSG_TEXT_SIZE) :
    (setText msg src).msgText.length = MSG_TEXT_SIZE := by
  simp only [setText]
  rw [terminated_copy_length _ _ _ (by rw [h]; decide)]
  exact h

theorem cstr_shm_copy (r : ShmRegion) (msgText : List Nat) :
    cstr (shm_copy r msgText).buf = (cstr msgText).take (SHM_TEXT_SIZE - 1) :=
  cstr_terminated_copy _ _ _

/-! ## Facts about reading a line -/

theorem fgetsChars_line (k : Nat) (l rest : List Nat) (h : ∀ c ∈ l, c ≠ NL) :
    fgetsChars k (l ++ NL :: rest) =
      if l.length < k then (l ++ [NL], rest) else (l.take k, l.drop k ++ NL :: rest) := by
  induction k generalizing l with
  | zero => simp [fgetsChars]
  | succ k ih =>
    cases l with
    | nil => simp [fgetsChars]
    | cons c l =>
      have hc : c ≠ NL := h c (by simp)
      have hl : ∀ d ∈ l, d ≠ NL := fun d hd => h d (by simp [hd])
      have e := ih l hl
      rw [List.cons_append, fgetsChars, if_neg hc, e]
      simp only [List.length_cons, Nat.add_lt_add_iff_right]
      split <;> simp

theorem fgetsChars_last (k : Nat) (l : List Nat) (h : ∀ c ∈ l, c ≠ NL) :
    fgetsChars k l = (l.take k, l.drop k) := by
  induction k generalizing l with
  | zero => simp [fgetsChars]
  | succ k ih =>
    cases l with
    | nil => simp [fgetsChars]
    | cons c l =>
      have hc : c ≠ NL := h c (by simp)
      have hl : ∀ d ∈ l, d ≠ NL := fun d hd => h d (by simp [hd])
      simp [fgetsChars, hc, ih l hl]

theorem stripNewline_of_newline (l tail : List Nat) (h : ∀ c ∈ l, c ≠ 0) :
    cstr (stripNewline (l ++ [NL] ++ 0 :: tail)) = l := by
  have hz : ∀ c ∈ l ++ [NL], c ≠ 0 := by
    intro c hc
    rcases List.mem_append.1 hc with hc | hc
    · exact h c hc
    · simp at hc; subst hc; decide
  have hs : strlen (l ++ [NL] ++ 0 :: tail) = l.length + 1 := by
    rw [strlen, cstr_append_zero _ _ hz]
    simp
  have hg : (l ++ [NL] ++ 0 :: tail).getD (l.length + 1 - 1) 0 = NL := by
    rw [List.append_assoc, Nat.add_sub_cancel, List.getD_eq_getElem?_getD,
      List.getElem?_append_right (Nat.le_refl _)]
    simp
  unfold stripNewline
  simp only [hs, hg, Nat.zero_lt_succ, and_self, if_true]
  rw [cstr_writeAt_zero, Nat.add_sub_cancel, cstr_append_zero _ _ hz]
  simp

theorem stripNewline_of_no_newline (l tail : List Nat) (h : ∀ c ∈ l, c ≠ 0)
    (hn : ∀ c ∈ l, c ≠ NL) : stripNewline (l ++ 0 :: tail) = l ++ 0 :: tail := by
  have hs : strlen (l ++ 0 :: tail) = l.length := by
    simp [strlen, cstr_append_zero _ _ h]
  unfold stripNewline
  rw [hs]
  dsimp only
  split
  · rename_i hc
    exfalso
    obtain ⟨hpos, hg⟩ := hc
    have hlt : l.length - 1 < l.length := by omega
    rw [List.getD_eq_getElem?_getD, List.getElem?_append_left hlt] at hg
    have hm : l[l.length - 1] ∈ l := List.getElem_mem _
    rw [List.getElem?_eq_getElem hlt] at hg
    exact hn _ hm (by simpa using hg)
  · rfl

theorem fgets_nil (line : List Nat) (n : Nat) : fgets line n [] = none := rfl

theorem fgets_of_ne_nil (line : List Nat) (n : Nat) (fp : List Nat) (h : fp ≠ []) :
    fgets line n fp =
      some (writeAt line 0 ((fgetsChars (n - 1) fp).1 ++ [0]), (fgetsChars (n - 1) fp).2) := by
  cases fp with
  | nil => exact absurd rfl h
  | cons c fp => rfl

theorem prepare_nil (line : List Nat) (msg : message_t) : prepare line msg [] = none := rfl

/-- One preparation on a stream that starts with the line `l` and its newline:
the string left in `line` is `l` cut to 1151 characters, and the part of `l`
after these stays unread. -/
theorem prepare_line (line : List Nat) (msg : message_t) (l rest : List Nat)
    (h0 : ∀ c ∈ l, c ≠ 0) (hn : ∀ c ∈ l, c ≠ NL) :
    ∃ line', prepare line msg (l ++ NL :: rest) =
        some (line', setText msg line',
          if l.length < LINE_SIZE - 1 then rest else l.drop (LINE_SIZE - 1) ++ NL :: rest) ∧
      cstr line' = l.take (LINE_SIZE - 1) := by
  have hne : l ++ NL :: rest ≠ [] := by simp
  unfold prepare
  rw [fgets_of_ne_nil _ _ _ hne, fgetsChars_line _ _ _ hn]
  by_cases hlen : l.length < LINE_SIZE - 1
  · simp only [hlen, if_true]
    refine ⟨_, rfl, ?_⟩
    have e : writeAt line 0 (l ++ [NL] ++ [0]) =
        l ++ [NL] ++ 0 :: line.drop (0 + (l ++ [NL] ++ [0]).length) := by
      simp [writeAt]
    rw [e, stripNewline_of_newline _ _ h0, List.take_of_length_le (by omega)]
  · simp only [hlen, if_false]
    refine ⟨_, rfl, ?_⟩
    have e : writeAt line 0 (l.take (LINE_SIZE - 1) ++ [0]) =
        l.take (LINE_SIZE - 1) ++ 0 :: line.drop (0 + (l.take (LINE_SIZE - 1) ++ [0]).length) := by
      simp [writeAt]
    have h0' : ∀ c ∈ l.take (LINE_SIZE - 1), c ≠ 0 := fun c hc => h0 c (List.mem_of_mem_take hc)
    have hn' : ∀ c ∈ l.take (LINE_SIZE - 1), c ≠ NL := fun c hc => hn c (List.mem_of_mem_take hc)
    rw [e, stripNewline_of_no_newline _ _ h0' hn', cstr_append_zero _ _ h0']

/-- One preparation on a stream that is a last line without a newline. -/
theorem prepare_last (line : List Nat) (msg : message_t) (l : List Nat) (hne : l ≠ [])
    (h0 : ∀ c ∈ l, c ≠ 0) (hn : ∀ c ∈ l, c ≠ NL) :
    ∃ line', prepare line msg l =
        some (line', setText msg line', l.drop (LINE_SIZE - 1)) ∧
      cstr line' = l.take (LINE_SIZE - 1) := by
  unfold prepare
  rw [fgets_of_ne_nil _ _ _ hne, fgetsChars_last _ _ hn]
  refine ⟨_, rfl, ?_⟩
  have e : writeAt line 0 (l.take (LINE_SIZE - 1) ++ [0]) =
      l.take (LINE_SIZE - 1) ++ 0 :: line.drop (0 + (l.take (LINE_SIZE - 1) ++ [0]).length) := by
    simp [writeAt]
  have h0' : ∀ c ∈ l.take (LINE_SIZE - 1), c ≠ 0 := fun c hc => h0 c (List.mem_of_mem_take hc)
  have hn' : ∀ c ∈ l.take (LINE_SIZE - 1), c ≠ NL := fun c hc => hn c (List.mem_of_mem_take hc)
  simp only []
  rw [e, stripNewline_of_no_newline _ _ h0' hn', cstr_append_zero _ _ h0']

/-! ## Facts about the transport -/

theorem take_text_with_nul (b : List Nat) (h : (cstr b).length < b.length) :
    b.take ((cstr b).length + 1) = cstr b ++ [0] := by
  induction b with
  | nil => simp at h
  | cons c b ih =>
    by_cases hc : c = 0
    · subst hc; simp [cstr_cons_zero]
    · rw [cstr_cons_ne _ _ hc] at h ⊢
      simp only [List.length_cons, Nat.add_lt_add_iff_right] at h
      simp [ih h]

theorem send_queue (msg : message_t) (mb : mailbox_t) (w : World)
    (hf : mb.flag = MSG_PASSING) (hq : 0 ≤ mb.msqid) :
    send msg mb w =
      { w with queues := (msgsnd w.queues mb.msqid msg.mType
          (msg.msgText.take (strnlen msg.msgText (MSG_TEXT_SIZE - 1) + 1))).2 } := by
  simp [send, hf, not_lt.2 hq]

theorem send_shm (msg : message_t) (mb : mailbox_t) (w : World)
    (hf : mb.flag = SHARED_MEM) (ha : mb.shm_addr ≠ 0) :
    send msg mb w =
      { w with shm :=
          { shm_copy w.shm msg.msgText with
            status := if strcmp_eq msg.msgText EXIT_MARKER then 2 else 1 } } := by
  have hne : SHARED_MEM ≠ MSG_PASSING := by decide
  simp [send, hf, ha, hne]

theorem receive_queue (recv : message_t) (mb : mailbox_t) (w : World)
    (hf : mb.flag = MSG_PASSING) (hq : 0 ≤ mb.msqid) :
    receive recv mb w =
      match msgrcv w.queues mb.msqid MSG_TEXT_SIZE with
      | .blocked => none
      | .failed => some (recv, w)
      | .received m qs =>
        some ({ mType := m.mtype
                msgText := writeAt (writeAt recv.msgText 0 m.mtext) (MSG_TEXT_SIZE - 1) [0] },
              { w with queues := qs }) := by
  simp [receive, hf, not_lt.2 hq]

theorem receive_shm (recv : message_t) (mb : mailbox_t) (w : World)
    (hf : mb.flag = SHARED_MEM) (ha : mb.shm_addr ≠ 0) :
    receive recv mb w =
      some ({ recv with
                msgText := writeAt (strncpy recv.msgText w.shm.buf (MSG_TEXT_SIZE - 1))
                  (MSG_TEXT_SIZE - 1) [0] },
            { w with shm := { w.shm with status := 0 } }) := by
  have hne : SHARED_MEM ≠ MSG_PASSING := by decide
  simp [receive, hf, ha, hne]

theorem send_holds (mech q : Int) (mb : mailbox_t) (w : World) (msg : message_t)
    (hmb : MailboxReady mech q mb)
    (he : TransportEmpty mech q w) (hty : msg.mType = 1)
    (hlen : msg.msgText.length = MSG_TEXT_SIZE)
    (ht : (cstr msg.msgText).length ≤ MSG_TEXT_SIZE - 1) :
    TransportHolds mech q (send msg mb w) (cstr msg.msgText) := by
  obtain ⟨hf, hq, ha⟩ := hmb
  subst hf
  refine ⟨ht, cstr_no_nul _, ?_, ?_⟩
  · intro h1
    obtain ⟨hq1, hq2⟩ := hq h1
    have hw := he h1
    have hlt : (cstr msg.msgText).length < msg.msgText.length := by
      rw [hlen]; simp only [MSG_TEXT_SIZE] at ht ⊢; omega
    have hsn : strnlen msg.msgText (MSG_TEXT_SIZE - 1) = (cstr msg.msgText).length := by
      rw [strnlen, cstr_take, List.take_of_length_le ht]
    rw [send_queue _ _ _ h1 (hq1 ▸ hq2), hsn, take_text_with_nul _ hlt, hq1]
    simp [msgsnd, hw, hty, setQueue]
  · intro h2
    rw [send_shm _ _ _ h2 (ha h2)]
    simp only [cstr_shm_copy]
    exact List.take_of_length_le ht

theorem receive_holds (mech q : Int) (mb : mailbox_t) (w : World) (recv : message_t)
    (t : List Nat) (hm : mech = MSG_PASSING ∨ mech = SHARED_MEM)
    (hmb : MailboxReady mech q mb) (hh : TransportHolds mech q w t) :
    ∃ r w', receive recv mb w = some (r, w') ∧ cstr r.msgText = t ∧
      TransportEmpty mech q w' := by
  obtain ⟨hf, hq, ha⟩ := hmb
  subst hf
  obtain ⟨hlen, h0, hqueue, hshm⟩ := hh
  rcases hm with h1 | h2
  · obtain ⟨hq1, hq2⟩ := hq h1
    have hw := hqueue h1
    have hsz : ¬ MSG_TEXT_SIZE < (t ++ [0]).length := by
      simp only [List.length_append, List.length_singleton, MSG_TEXT_SIZE] at hlen ⊢; omega
    rw [receive_queue _ _ _ h1 (hq1 ▸ hq2), hq1]
    simp only [msgrcv, hw, hsz, if_false]
    refine ⟨_, _, rfl, ?_, ?_⟩
    · simp only []
      rw [cstr_writeAt_zero, cstr_writeAt_string, cstr_of_no_nul _ h0,
        List.take_of_length_le hlen]
    · intro _
      simp [setQueue]
  · have hne : mb.flag ≠ MSG_PASSING := by rw [h2]; decide
    rw [receive_shm _ _ _ h2 (ha h2)]
    refine ⟨_, _, rfl, ?_, ?_⟩
    · simp only []
      rw [cstr_terminated_copy, hshm h2, List.take_of_length_le hlen]
    · intro h1
      exact absurd h1 hne

/-! ## The turn: one token shared by the semaphores and the processes -/

theorem reachable_induction (P : State → Prop) (s0 : State) (h0 : P s0)
    (hstep : ∀ p s t, P s → step p s = some t → P t) :
    ∀ s, Reachable s0 s → P s := by
  intro s hr
  induction hr with
  | refl => exact h0
  | tail _ hst ih =>
    obtain ⟨p, hp⟩ := hst
    exact hstep p _ _ ih hp

theorem step_keeps_token (p : Proc) (s t : State) (h : step p s = some t) :
    t.sem_sender + t.sem_receiver + active t = s.sem_sender + s.sem_receiver + active s := by
  cases p with
  | sender =>
    simp only [step, sender_step] at h
    split at h
    · split at h <;> simp only [Option.some.injEq] at h <;> subst h <;>
        simp_all [active, senderActive]
    · split at h
      · simp only [Option.some.injEq] at h; subst h
        simp_all [active, senderActive]; omega
      · simp at h
    · simp only [Option.some.injEq] at h; subst h
      simp_all [active, senderActive]
    · simp only [Option.some.injEq] at h; subst h
      simp_all [active, senderActive]; omega
    · split at h
      · simp only [Option.some.injEq] at h; subst h
        simp_all [active, senderActive]; omega
      · simp at h
    · simp only [Option.some.injEq] at h; subst h
      simp_all [active, senderActive]
    · simp only [Option.some.injEq] at h; subst h
      simp_all [active, senderActive]; omega
    · simp at h
  | receiver =>
    simp only [step, receiver_step] at h
    split at h
    · split at h
      · simp only [Option.some.injEq] at h; subst h
        simp_all [active, receiverActive]; omega
      · simp at h
    · split at h
      · simp at h
      · simp only [Option.some.injEq] at h; subst h
        simp_all [active, receiverActive]
    · split at h <;> simp only [Option.some.injEq] at h <;> subst h <;>
        simp_all [active, receiverActive]
    · simp only [Option.some.injEq] at h; subst h
      simp_all [active, receiverActive]; omega
    · simp only [Option.some.injEq] at h; subst h
      simp_all [active, receiverActive]; omega
    · simp at h

/-! ## The steps, case by case -/

theorem sender_step_cases (s t : State) (h : sender_step s = some t) :
    (s.spc = .read ∧ prepare s.line s.msg s.fp = none ∧ t = { s with spc := .exitAcquire }) ∨
    (s.spc = .read ∧ ∃ line msg fp, prepare s.line s.msg s.fp = some (line, msg, fp) ∧
      t = { s with fp := fp, line := line, msg := msg, spc := .acquire }) ∨
    (s.spc = .acquire ∧ 0 < s.sem_sender ∧
      t = { s with sem_sender := s.sem_sender - 1, spc := .put }) ∨
    (s.spc = .put ∧
      t = { s with
        world := send s.msg s.smailbox s.world
        sout := s.sout ++ [.sending (cstr s.msg.msgText)]
        spc := .release }) ∨
    (s.spc = .release ∧ t = { s with sem_receiver := s.sem_receiver + 1, spc := .read }) ∨
    (s.spc = .exitAcquire ∧ 0 < s.sem_sender ∧
      t = { s with sem_sender := s.sem_sender - 1, spc := .exitPut }) ∨
    (s.spc = .exitPut ∧
      t = { s with
        msg := setText s.msg EXIT_MARKER
        world := send (setText s.msg EXIT_MARKER) s.smailbox s.world
        sout := s.sout ++ [.endOfInput]
        spc := .exitRelease }) ∨
    (s.spc = .exitRelease ∧
      t = { s with sem_receiver := s.sem_receiver + 1, spc := .finished }) := by
  simp only [sender_step] at h
  split at h
  · rename_i hpc
    split at h
    · rename_i hp
      simp only [Option.some.injEq] at h
      exact Or.inl ⟨hpc, hp, h.symm⟩
    · rename_i line msg fp hp
      simp only [Option.some.injEq] at h
      exact Or.inr (Or.inl ⟨hpc, line, msg, fp, hp, h.symm⟩)
  · rename_i hpc
    split at h
    · rename_i hpos
      simp only [Option.some.injEq] at h
      exact Or.inr (Or.inr (Or.inl ⟨hpc, hpos, h.symm⟩))
    · simp at h
  · rename_i hpc
    simp only [Option.some.injEq] at h
    exact Or.inr (Or.inr (Or.inr (Or.inl ⟨hpc, h.symm⟩)))
  · rename_i hpc
    simp only [Option.some.injEq] at h
    exact Or.inr (Or.inr (Or.inr (Or.inr (Or.inl ⟨hpc, h.symm⟩))))
  · rename_i hpc
    split at h
    · rename_i hpos
      simp only [Option.some.injEq] at h
      exact Or.inr (Or.inr (Or.inr (Or.inr (Or.inr (Or.inl ⟨hpc, hpos, h.symm⟩)))))
    · simp at h
  · rename_i hpc
    simp only [Option.some.injEq] at h
    exact Or.inr (Or.inr (Or.inr (Or.inr (Or.inr (Or.inr (Or.inl ⟨hpc, h.symm⟩))))))
  · rename_i hpc
    simp only [Option.some.injEq] at h
    exact Or.inr (Or.inr (Or.inr (Or.inr (Or.inr (Or.inr (Or.inr ⟨hpc, h.symm⟩))))))
  · simp at h

theorem receiver_step_cases (s t : State) (h : receiver_step s = some t) :
    (s.rpc = .acquire ∧ 0 < s.sem_receiver ∧
      t = { s with sem_receiver := s.sem_receiver - 1, rpc := .get }) ∨
    (s.rpc = .get ∧ ∃ recv w, receive s.recv s.rmailbox s.world = some (recv, w) ∧
      t = { s with recv := recv, world := w, rpc := .check }) ∨
    (s.rpc = .check ∧ strcmp_eq s.recv.msgText EXIT_MARKER = true ∧
      t = { s with rout := s.rout ++ [.senderExit], rpc := .exitRelease }) ∨
    (s.rpc = .check ∧ strcmp_eq s.recv.msgText EXIT_MARKER = false ∧
      t = { s with rout := s.rout ++ [.receiving (cstr s.recv.msgText)], rpc := .release }) ∨
    (s.rpc = .release ∧ t = { s with sem_sender := s.sem_sender + 1, rpc := .acquire }) ∨
    (s.rpc = .exitRelease ∧
      t = { s with sem_sender := s.sem_sender + 1, rpc := .finished }) := by
  simp only [receiver_step] at h
  split at h
  · rename_i hpc
    split at h
    · rename_i hpos
      simp only [Option.some.injEq] at h
      exact Or.inl ⟨hpc, hpos, h.symm⟩
    · simp at h
  · rename_i hpc
    split at h
    · simp at h
    · rename_i recv w hr
      simp only [Option.some.injEq] at h
      exact Or.inr (Or.inl ⟨hpc, recv, w, hr, h.symm⟩)
  · rename_i hpc
    split at h
    · rename_i hc
      simp only [Option.some.injEq] at h
      exact Or.inr (Or.inr (Or.inl ⟨hpc, hc, h.symm⟩))
    · rename_i hc
      simp only [Option.some.injEq] at h
      exact Or.inr (Or.inr (Or.inr (Or.inl ⟨hpc, by simpa using hc, h.symm⟩)))
  · rename_i hpc
    simp only [Option.some.injEq] at h
    exact Or.inr (Or.inr (Or.inr (Or.inr (Or.inl ⟨hpc, h.symm⟩))))
  · rename_i hpc
    simp only [Option.some.injEq] at h
    exact Or.inr (Or.inr (Or.inr (Or.inr (Or.inr ⟨hpc, h.symm⟩))))
  · simp at h

/-! ## The status word follows the turn -/

theorem status_send (msg : message_t) (mb : mailbox_t) (w : World)
    (hf : mb.flag = SHARED_MEM) (ha : mb.shm_addr ≠ 0) :
    (send msg mb w).shm.status = if cstr msg.msgText = EXIT_MARKER then 2 else 1 := by
  rw [send_shm _ _ _ hf ha]
  have : cstr EXIT_MARKER = EXIT_MARKER := by decide
  simp [strcmp_eq, this]

theorem status_send_cases (msg : message_t) (mb : mailbox_t) (w : World)
    (hf : mb.flag = SHARED_MEM) (ha : mb.shm_addr ≠ 0) :
    (send msg mb w).shm.status = 1 ∨ (send msg mb w).shm.status = 2 := by
  rw [status_send _ _ _ hf ha]
  split
  · exact Or.inr rfl
  · exact Or.inl rfl

theorem status_receive (recv r : message_t) (mb : mailbox_t) (w w' : World)
    (hf : mb.flag = SHARED_MEM) (ha : mb.shm_addr ≠ 0)
    (h : receive recv mb w = some (r, w')) : w'.shm.status = 0 := by
  rw [receive_shm _ _ _ hf ha] at h
  simp only [Option.some.injEq, Prod.mk.injEq] at h
  rw [← h.2]

theorem statusInv_step (p : Proc) (s t : State) (hI : StatusInv s)
    (h : step p s = some t) : StatusInv t := by
  obtain ⟨⟨hsf, hsa, hrf, hra⟩, hsum, h1, h2, h3, h4, h5, h6⟩ := hI
  have hsumt : t.sem_sender + t.sem_receiver + active t = 1 := by
    rw [step_keeps_token p s t h]; exact hsum
  cases p with
  | sender =>
    have hs1 := status_send_cases s.msg s.smailbox s.world hsf hsa
    have hs2 := status_send_cases (setText s.msg EXIT_MARKER) s.smailbox s.world hsf hsa
    rcases sender_step_cases s t h with ⟨hpc, _, rfl⟩ | ⟨hpc, _, _, _, _, rfl⟩ |
      ⟨hpc, hpos, rfl⟩ | ⟨hpc, rfl⟩ | ⟨hpc, rfl⟩ | ⟨hpc, hpos, rfl⟩ | ⟨hpc, rfl⟩ | ⟨hpc, rfl⟩
    all_goals
      refine ⟨⟨hsf, hsa, hrf, hra⟩, hsumt, ?_⟩
      clear h hsumt
      generalize send s.msg s.smailbox s.world = W1 at hs1 ⊢
      generalize send (setText s.msg EXIT_MARKER) s.smailbox s.world = W2 at hs2 ⊢
      simp only [status, active] at *
      cases hr : s.rpc <;>
        simp only [hpc, hr, senderActive, receiverActive] at hsum h2 h3 h5 h6 ⊢ <;>
        simp_all
  | receiver =>
    rcases receiver_step_cases s t h with ⟨hpc, hpos, rfl⟩ | ⟨hpc, r, w, hrecv, rfl⟩ |
      ⟨hpc, _, rfl⟩ | ⟨hpc, _, rfl⟩ | ⟨hpc, rfl⟩ | ⟨hpc, rfl⟩
    all_goals
      refine ⟨⟨hsf, hsa, hrf, hra⟩, hsumt, ?_⟩
      try have hs0 := status_receive _ _ _ _ _ hrf hra hrecv
      try clear hrecv
      clear h hsumt
      simp only [status, active] at *
      cases hs : s.spc <;>
        simp only [hpc, hs, senderActive, receiverActive] at hsum h2 h3 h5 h6 ⊢ <;>
        simp_all

/-! ## Every run is finite -/

theorem fgetsChars_rest_le (k : Nat) (fp : List Nat) :
    (fgetsChars k fp).2.length ≤ fp.length := by
  induction k generalizing fp with
  | zero => simp [fgetsChars]
  | succ k ih =>
    cases fp with
    | nil => simp [fgetsChars]
    | cons c fp =>
      simp only [fgetsChars]
      split
      · simp
      · have := ih fp
        simp only [List.length_cons]
        omega

theorem fgetsChars_rest_lt (k : Nat) (c : Nat) (fp : List Nat) :
    (fgetsChars (k + 1) (c :: fp)).2.length < (c :: fp).length := by
  simp only [fgetsChars]
  split
  · simp
  · have := fgetsChars_rest_le k fp
    simp only [List.length_cons]
    omega

theorem prepare_rest_lt (line : List Nat) (msg : message_t) (fp : List Nat)
    (line' : List Nat) (msg' : message_t) (fp' : List Nat)
    (h : prepare line msg fp = some (line', msg', fp')) : fp'.length < fp.length := by
  cases fp with
  | nil => simp [prepare, fgets] at h
  | cons c fp =>
    simp only [prepare, fgets, Option.some.injEq, Prod.mk.injEq] at h
    rw [← h.2.2]
    exact fgetsChars_rest_lt _ c fp

theorem potential_decreases (p : Proc) (s t : State) (h : step p s = some t) :
    potential t < potential s := by
  cases p with
  | sender =>
    rcases sender_step_cases s t h with ⟨hpc, _, rfl⟩ | ⟨hpc, _, _, fp, hp, rfl⟩ |
      ⟨hpc, hpos, rfl⟩ | ⟨hpc, rfl⟩ | ⟨hpc, rfl⟩ | ⟨hpc, hpos, rfl⟩ | ⟨hpc, rfl⟩ | ⟨hpc, rfl⟩
    · simp only [potential, senderFuel, hpc]; omega
    · have := prepare_rest_lt _ _ _ _ _ _ hp
      simp only [potential, senderFuel, hpc]; omega
    all_goals simp only [potential, senderFuel, hpc]; omega
  | receiver =>
    rcases receiver_step_cases s t h with ⟨hpc, hpos, rfl⟩ | ⟨hpc, r, w, hrecv, rfl⟩ |
      ⟨hpc, _, rfl⟩ | ⟨hpc, _, rfl⟩ | ⟨hpc, rfl⟩ | ⟨hpc, rfl⟩
    all_goals simp only [potential, senderFuel, receiverFuel, hpc]; omega

theorem terminates_all (s : State) : Terminates s := by
  have hwf : WellFounded (fun t u : State => potential t < potential u) :=
    InvImage.wf potential Nat.lt_wfRel.wf
  refine Subrelation.accessible ?_ (hwf.apply s)
  intro t u htu
  obtain ⟨p, hp⟩ := htu
  exact potential_decreases p u t hp

theorem exists_terminal (s : State) : ∃ t, Reachable s t ∧ Terminal t := by
  induction terminates_all s with
  | intro s _ ih =>
    by_cases hT : Terminal s
    · exact ⟨s, Relation.ReflTransGen.refl, hT⟩
    · simp only [Terminal, not_forall] at hT
      obtain ⟨p, hp⟩ := hT
      obtain ⟨u, hu⟩ := Option.ne_none_iff_exists'.1 hp
      obtain ⟨t, hrt, ht⟩ := ih u ⟨p, hu⟩
      exact ⟨t, Relation.ReflTransGen.head ⟨p, hu⟩ hrt, ht⟩

/-! ## Facts about files of good lines -/

theorem take_ne_exit (l : List Nat) (h : l ≠ EXIT_MARKER) :
    l.take (MSG_TEXT_SIZE - 1) ≠ EXIT_MARKER := by
  intro he
  have hl : (l.take (MSG_TEXT_SIZE - 1)).length = 10 := by rw [he]; rfl
  have hlen : l.length ≤ MSG_TEXT_SIZE - 1 := by
    simp only [List.length_take, MSG_TEXT_SIZE] at hl ⊢
    omega
  rw [List.take_of_length_le hlen] at he
  exact h he

theorem texts_get (lines : List (List Nat)) (hg : ∀ l ∈ lines, GoodLine l) (k : Nat)
    (t : List Nat) (h : (texts lines)[k]? = some t) :
    k ≤ lines.length ∧ t.length ≤ MSG_TEXT_SIZE - 1 ∧ (t = EXIT_MARKER ↔ k = lines.length) ∧
      (expected lines)[k]? =
        some (if t = EXIT_MARKER then Output.senderExit else Output.receiving t) := by
  rcases Nat.lt_trichotomy k lines.length with hlt | heq | hgt
  · have hk : k < (lines.map (fun l => l.take (MSG_TEXT_SIZE - 1))).length := by simpa using hlt
    have hk' : k < (lines.map (fun l => Output.receiving (l.take (MSG_TEXT_SIZE - 1)))).length := by
      simpa using hlt
    rw [texts, List.getElem?_append_left hk, List.getElem?_map, List.getElem?_eq_getElem hlt] at h
    simp only [Option.map_some', Option.some.injEq] at h
    have hne : t ≠ EXIT_MARKER := by
      rw [← h]
      exact take_ne_exit _ (hg _ (List.getElem_mem _)).2.2.2
    refine ⟨Nat.le_of_lt hlt, ?_, ?_, ?_⟩
    · rw [← h]; simp only [List.length_take]; omega
    · constructor
      · intro he; exact absurd he hne
      · intro he; omega
    · rw [expected, List.getElem?_append_left hk', List.getElem?_map,
        List.getElem?_eq_getElem hlt]
      simp [hne, h]
  · subst heq
    have hk : (lines.map (fun l => l.take (MSG_TEXT_SIZE - 1))).length ≤ lines.length := by simp
    have hk' : (lines.map (fun l => Output.receiving (l.take (MSG_TEXT_SIZE - 1)))).length
        ≤ lines.length := by simp
    rw [texts, List.getElem?_append_right hk] at h
    simp only [List.length_map, Nat.sub_self, List.getElem?_cons_zero, Option.some.injEq] at h
    subst h
    refine ⟨Nat.le_refl _, by decide, by simp, ?_⟩
    rw [expected, List.getElem?_append_right hk']
    simp
  · have : (texts lines)[k]? = none := by
      apply List.getElem?_eq_none
      simp only [texts, List.length_append, List.length_map, List.length_singleton]
      omega
    rw [this] at h
    exact absurd h (by simp)

theorem texts_exit (lines : List (List Nat)) : (texts lines)[lines.length]? = some EXIT_MARKER := by
  have hk : (lines.map (fun l => l.take (MSG_TEXT_SIZE - 1))).length ≤ lines.length := by simp
  rw [texts, List.getElem?_append_right hk]
  simp

theorem texts_line (lines : List (List Nat)) (i : Nat) (l : List Nat) (ls : List (List Nat))
    (h : lines.drop i = l :: ls) :
    i < lines.length ∧ lines.drop (i + 1) = ls ∧
      (texts lines)[i]? = some (l.take (MSG_TEXT_SIZE - 1)) := by
  have hlt : i < lines.length := by
    by_contra hc
    rw [List.drop_of_length_le (by omega)] at h
    exact absurd h (by simp)
  have hd := List.drop_eq_getElem_cons hlt
  rw [h] at hd
  simp only [List.cons.injEq] at hd
  have hk : i < (lines.map (fun l => l.take (MSG_TEXT_SIZE - 1))).length := by simpa using hlt
  refine ⟨hlt, hd.2.symm, ?_⟩
  rw [texts, List.getElem?_append_left hk, List.getElem?_map, List.getElem?_eq_getElem hlt,
    ← hd.1]
  rfl

theorem expected_length (lines : List (List Nat)) : (expected lines).length = lines.length + 1 := by
  simp [expected]

theorem goodFile_drop (b : Bool) (lines : List (List Nat)) (i : Nat) (h : GoodFile b lines) :
    GoodFile b (lines.drop i) := by
  refine ⟨fun l hl => h.1 l (List.mem_of_mem_drop hl), ?_⟩
  intro hb l hl
  rw [List.getLast?_drop] at hl
  split at hl
  · exact absurd hl (by simp)
  · exact h.2 hb l hl

theorem fileOf_cons_cons (b : Bool) (l l' : List Nat) (ls : List (List Nat)) :
    fileOf b (l :: l' :: ls) = l ++ NL :: fileOf b (l' :: ls) := rfl

/-- One preparation on a file of good lines takes exactly the first line. -/
theorem prepare_fileOf (b : Bool) (l : List Nat) (ls : List (List Nat))
    (hg : GoodFile b (l :: ls)) (line : List Nat) (msg : message_t) :
    ∃ line', prepare line msg (fileOf b (l :: ls)) =
        some (line', setText msg line', fileOf b ls) ∧ cstr line' = l := by
  obtain ⟨h0, hn, hlen, _⟩ := hg.1 l (by simp)
  have htake : l.take (LINE_SIZE - 1) = l := List.take_of_length_le (Nat.le_of_lt hlen)
  cases ls with
  | nil =>
    cases b with
    | true =>
      obtain ⟨line', hp, hc⟩ := prepare_line line msg l [] h0 hn
      refine ⟨line', ?_, by rw [hc, htake]⟩
      simpa [fileOf, hlen] using hp
    | false =>
      have hne : l ≠ [] := hg.2 rfl l (by simp)
      obtain ⟨line', hp, hc⟩ := prepare_last line msg l hne h0 hn
      refine ⟨line', ?_, by rw [hc, htake]⟩
      have hd : l.drop (LINE_SIZE - 1) = [] := List.drop_of_length_le (Nat.le_of_lt hlen)
      simpa [fileOf, hd] using hp
  | cons l' ls =>
    obtain ⟨line', hp, hc⟩ := prepare_line line msg l (fileOf b (l' :: ls)) h0 hn
    refine ⟨line', ?_, by rw [hc, htake]⟩
    rw [fileOf_cons_cons]
    simpa [hlen] using hp

/-! ## The delivery invariant is kept by every step -/

theorem deliveryInv_init (mech q : Int) (b : Bool) (lines : List (List Nat))
    (smb rmb : mailbox_t) (w : World) (line msgText recvText : List Nat)
    (hs : MailboxReady mech q smb) (hr : MailboxReady mech q rmb)
    (hw : TransportEmpty mech q w) (hlen : msgText.length = MSG_TEXT_SIZE) :
    DeliveryInv mech q b lines
      (initState smb rmb w (fileOf b lines) line msgText recvText) 0 0 0 := by
  constructor <;> simp_all [initState, active, senderActive, receiverActive]

theorem senderIdle (pc : SenderPc) (h : senderActive pc = 0) :
    pc ≠ .put ∧ pc ≠ .release ∧ pc ≠ .exitPut ∧ pc ≠ .exitRelease := by
  cases pc <;> simp_all [senderActive]

theorem receiverIdle (pc : ReceiverPc) (h : receiverActive pc = 0) :
    pc ≠ .get ∧ pc ≠ .check ∧ pc ≠ .release ∧ pc ≠ .exitRelease := by
  cases pc <;> simp_all [receiverActive]

theorem cstr_exit_text (msg : message_t) :
    cstr (setText msg EXIT_MARKER).msgText = EXIT_MARKER := by
  rw [cstr_setText]
  decide

set_option linter.unusedTactic false in
set_option linter.unreachableTactic false in
theorem deliveryInv_sender (mech q : Int) (b : Bool) (lines : List (List Nat))
    (hg : GoodFile b lines) (s t : State) (i j k : Nat)
    (hI : DeliveryInv mech q b lines s i j k) (h : step .sender s = some t) :
    ∃ i' j' k', DeliveryInv mech q b lines t i' j' k' := by
  have htok : t.sem_sender + t.sem_receiver + active t = 1 := by
    rw [step_keeps_token _ s t h]; exact hI.token
  obtain ⟨smb, rmb, mty, mlen, token, hi, hfp, hout, sRead, sMsg, sRel, sExit, sFin, tS, tPut,
    tRel, tR, rGet, rCheck, rRel, rExit, rAcq, rFin⟩ := hI
  simp only [active] at token htok
  rcases sender_step_cases s t h with ⟨hpc, hp, rfl⟩ | ⟨hpc, line, msg, fp, hp, rfl⟩ |
    ⟨hpc, hpos, rfl⟩ | ⟨hpc, rfl⟩ | ⟨hpc, rfl⟩ | ⟨hpc, hpos, rfl⟩ | ⟨hpc, rfl⟩ | ⟨hpc, rfl⟩
  · -- end of the file
    clear h
    have hji := sRead hpc
    have hiN : i = lines.length := by
      cases hd : lines.drop i with
      | nil =>
        have := List.drop_eq_nil_iff.1 hd
        omega
      | cons l ls =>
        obtain ⟨line', hp', _⟩ := prepare_fileOf b l ls (hd ▸ goodFile_drop b lines i hg) s.line s.msg
        rw [hfp, hd, hp'] at hp
        exact absurd hp (by simp)
    refine ⟨i, j, k, ?_⟩
    constructor <;> first
      | assumption
      | (intro hx; dsimp only at hx; first
          | (simp at hx; done)
          | omega
          | (simp [hx] at hidle; done)
          | (rcases hx with hx | hx <;> simp [hx] at hidle <;> done))
      | (intro _; first
          | assumption
          | exact ⟨by omega, by assumption⟩
          | exact ⟨by omega, by omega⟩)
      | skip
  · -- a line is read
    clear h
    have hji := sRead hpc
    cases hd : lines.drop i with
    | nil =>
      rw [hfp, hd] at hp
      exact absurd hp (by simp [fileOf, prepare_nil])
    | cons l ls =>
      obtain ⟨line', hp', hc⟩ := prepare_fileOf b l ls (hd ▸ goodFile_drop b lines i hg) s.line s.msg
      rw [hfp, hd, hp'] at hp
      simp only [Option.some.injEq, Prod.mk.injEq] at hp
      obtain ⟨rfl, rfl, rfl⟩ := hp
      obtain ⟨hlt, hdrop, htx⟩ := texts_line lines i l ls hd
      have hct : cstr (setText s.msg line').msgText = l.take (MSG_TEXT_SIZE - 1) := by
        rw [cstr_setText, hc]
      have hml := setText_length s.msg line' mlen
      refine ⟨i + 1, j, k, ?_⟩
      constructor <;> first
      | assumption
      | (intro hx; dsimp only at hx; first
          | (simp at hx; done)
          | omega
          | (simp [hx] at hidle; done)
          | (rcases hx with hx | hx <;> simp [hx] at hidle <;> done))
      | (intro _; first
          | assumption
          | exact ⟨by omega, by assumption⟩
          | exact ⟨by omega, by omega⟩)
      | skip
      case hfp => exact congrArg (fileOf b) hdrop.symm
      case sMsg =>
        intro _
        refine ⟨by omega, ?_⟩
        show (texts lines)[j]? = some (cstr (setText s.msg line').msgText)
        rw [hct, hji]
        exact htx
  · -- the turn is taken
    clear h
    have hsems : s.sem_sender = 1 ∧ s.sem_receiver = 0 ∧ receiverActive s.rpc = 0 := by
      simp only [hpc, senderActive] at token; omega
    obtain ⟨hss, hsr, hra⟩ := hsems
    have hidle := receiverIdle _ hra
    have htS := tS hpos
    have hsM := sMsg (Or.inl hpc)
    refine ⟨i, j, k, ?_⟩
    constructor <;> first
      | assumption
      | (intro hx; dsimp only at hx; first
          | (simp at hx; done)
          | omega
          | (simp [hx] at hidle; done)
          | (rcases hx with hx | hx <;> simp [hx] at hidle <;> done))
      | (intro _; first
          | assumption
          | exact ⟨by omega, by assumption⟩
          | exact ⟨by omega, by omega⟩)
      | skip
  · -- the text is sent
    clear h
    have hsems : s.sem_sender = 0 ∧ s.sem_receiver = 0 ∧ receiverActive s.rpc = 0 := by
      simp only [hpc, senderActive] at token; omega
    obtain ⟨hss, hsr, hra⟩ := hsems
    have hidle := receiverIdle _ hra
    obtain ⟨hkj, hemp⟩ := tPut (Or.inl hpc)
    obtain ⟨hij, htx⟩ := sMsg (Or.inr hpc)
    have hbound := (texts_get lines hg.1 j _ htx).2.1
    have hhold := send_holds mech q s.smailbox s.world s.msg smb hemp mty mlen hbound
    have hpend : Pending mech q lines (send s.msg s.smailbox s.world) k :=
      ⟨_, hkj ▸ htx, hhold⟩
    refine ⟨i, j + 1, k, ?_⟩
    constructor <;> first
      | assumption
      | (intro hx; dsimp only at hx; first
          | (simp at hx; done)
          | omega
          | (simp [hx] at hidle; done)
          | (rcases hx with hx | hx <;> simp [hx] at hidle <;> done))
      | (intro _; first
          | assumption
          | exact ⟨by omega, by assumption⟩
          | exact ⟨by omega, by omega⟩)
      | skip
  · -- the receiver's turn is released
    clear h
    have hsems : s.sem_sender = 0 ∧ s.sem_receiver = 0 ∧ receiverActive s.rpc = 0 := by
      simp only [hpc, senderActive] at token; omega
    obtain ⟨hss, hsr, hra⟩ := hsems
    have hidle := receiverIdle _ hra
    have htR := tRel (Or.inl hpc)
    have hsR := sRel hpc
    refine ⟨i, j, k, ?_⟩
    constructor <;> first
      | assumption
      | (intro hx; dsimp only at hx; first
          | (simp at hx; done)
          | omega
          | (simp [hx] at hidle; done)
          | (rcases hx with hx | hx <;> simp [hx] at hidle <;> done))
      | (intro _; first
          | assumption
          | exact ⟨by omega, by assumption⟩
          | exact ⟨by omega, by omega⟩)
      | skip
  · -- the turn is taken after the end of the file
    clear h
    have hsems : s.sem_sender = 1 ∧ s.sem_receiver = 0 ∧ receiverActive s.rpc = 0 := by
      simp only [hpc, senderActive] at token; omega
    obtain ⟨hss, hsr, hra⟩ := hsems
    have hidle := receiverIdle _ hra
    have htS := tS hpos
    have hsE := sExit (Or.inl hpc)
    refine ⟨i, j, k, ?_⟩
    constructor <;> first
      | assumption
      | (intro hx; dsimp only at hx; first
          | (simp at hx; done)
          | omega
          | (simp [hx] at hidle; done)
          | (rcases hx with hx | hx <;> simp [hx] at hidle <;> done))
      | (intro _; first
          | assumption
          | exact ⟨by omega, by assumption⟩
          | exact ⟨by omega, by omega⟩)
      | skip
  · -- the exit marker is sent
    clear h
    have hsems : s.sem_sender = 0 ∧ s.sem_receiver = 0 ∧ receiverActive s.rpc = 0 := by
      simp only [hpc, senderActive] at token; omega
    obtain ⟨hss, hsr, hra⟩ := hsems
    have hidle := receiverIdle _ hra
    obtain ⟨hkj, hemp⟩ := tPut (Or.inr hpc)
    obtain ⟨hiN, hjN⟩ := sExit (Or.inr hpc)
    have hct := cstr_exit_text s.msg
    have hml := setText_length s.msg EXIT_MARKER mlen
    have hhold := send_holds mech q s.smailbox s.world (setText s.msg EXIT_MARKER) smb hemp
      (by rw [setText_mType]; exact mty) hml (by rw [hct]; decide)
    rw [hct] at hhold
    have hpend : Pending mech q lines (send (setText s.msg EXIT_MARKER) s.smailbox s.world) k :=
      ⟨_, by rw [hkj, hjN]; exact texts_exit lines, hhold⟩
    refine ⟨i, j + 1, k, ?_⟩
    constructor <;> first
      | assumption
      | (intro hx; dsimp only at hx; first
          | (simp at hx; done)
          | omega
          | (simp [hx] at hidle; done)
          | (rcases hx with hx | hx <;> simp [hx] at hidle <;> done))
      | (intro _; first
          | assumption
          | exact ⟨by omega, by assumption⟩
          | exact ⟨by omega, by omega⟩)
      | skip
  · -- the receiver's turn is released for the last time
    clear h
    have hsems : s.sem_sender = 0 ∧ s.sem_receiver = 0 ∧ receiverActive s.rpc = 0 := by
      simp only [hpc, senderActive] at token; omega
    obtain ⟨hss, hsr, hra⟩ := hsems
    have hidle := receiverIdle _ hra
    have htR := tRel (Or.inr hpc)
    have hsF := sFin (Or.inl hpc)
    refine ⟨i, j, k, ?_⟩
    constructor <;> first
      | assumption
      | (intro hx; dsimp only at hx; first
          | (simp at hx; done)
          | omega
          | (simp [hx] at hidle; done)
          | (rcases hx with hx | hx <;> simp [hx] at hidle <;> done))
      | (intro _; first
          | assumption
          | exact ⟨by omega, by assumption⟩
          | exact ⟨by omega, by omega⟩)
      | skip

theorem strcmp_exit (a : List Nat) : strcmp_eq a EXIT_MARKER = true ↔ cstr a = EXIT_MARKER := by
  have : cstr EXIT_MARKER = EXIT_MARKER := by decide
  simp [strcmp_eq, this]

set_option linter.unusedTactic false in
set_option linter.unreachableTactic false in
theorem deliveryInv_receiver (mech q : Int) (b : Bool) (lines : List (List Nat))
    (hm : mech = MSG_PASSING ∨ mech = SHARED_MEM)
    (hg : GoodFile b lines) (s t : State) (i j k : Nat)
    (hI : DeliveryInv mech q b lines s i j k) (h : step .receiver s = some t) :
    ∃ i' j' k', DeliveryInv mech q b lines t i' j' k' := by
  have htok : t.sem_sender + t.sem_receiver + active t = 1 := by
    rw [step_keeps_token _ s t h]; exact hI.token
  obtain ⟨smb, rmb, mty, mlen, token, hi, hfp, hout, sRead, sMsg, sRel, sExit, sFin, tS, tPut,
    tRel, tR, rGet, rCheck, rRel, rExit, rAcq, rFin⟩ := hI
  simp only [active] at token htok
  rcases receiver_step_cases s t h with ⟨hpc, hpos, rfl⟩ | ⟨hpc, r, w, hrecv, rfl⟩ |
    ⟨hpc, hcmp, rfl⟩ | ⟨hpc, hcmp, rfl⟩ | ⟨hpc, rfl⟩ | ⟨hpc, rfl⟩
  · -- the turn is taken
    clear h
    have hsems : s.sem_sender = 0 ∧ s.sem_receiver = 1 ∧ senderActive s.spc = 0 := by
      simp only [hpc, receiverActive] at token; omega
    obtain ⟨hss, hsr, hsa⟩ := hsems
    have hidle := senderIdle _ hsa
    have htR := tR hpos
    refine ⟨i, j, k, ?_⟩
    constructor <;> first
      | assumption
      | (intro hx; dsimp only at hx; first
          | (simp at hx; done)
          | omega
          | (simp [hx] at hidle; done)
          | (rcases hx with hx | hx <;> simp [hx] at hidle <;> done))
      | (intro _; first
          | assumption
          | exact ⟨by omega, by assumption⟩
          | exact ⟨by omega, by omega⟩)
      | skip
  · -- the text is received
    clear h
    have hsems : s.sem_sender = 0 ∧ s.sem_receiver = 0 ∧ senderActive s.spc = 0 := by
      simp only [hpc, receiverActive] at token; omega
    obtain ⟨hss, hsr, hsa⟩ := hsems
    have hidle := senderIdle _ hsa
    obtain ⟨hjk, t0, htx, hhold⟩ := rGet hpc
    obtain ⟨r', w', hrecv', hcr, hemp⟩ := receive_holds mech q s.rmailbox s.world s.recv t0 hm rmb hhold
    rw [hrecv] at hrecv'
    simp only [Option.some.injEq, Prod.mk.injEq] at hrecv'
    obtain ⟨rfl, rfl⟩ := hrecv'
    refine ⟨i, j, k, ?_⟩
    constructor <;> first
      | assumption
      | (intro hx; dsimp only at hx; first
          | (simp at hx; done)
          | omega
          | (simp [hx] at hidle; done)
          | (rcases hx with hx | hx <;> simp [hx] at hidle <;> done))
      | (intro _; first
          | assumption
          | exact ⟨by omega, by assumption⟩
          | exact ⟨by omega, by omega⟩)
      | skip
    case rCheck =>
      intro _
      exact ⟨hjk, hemp, by rw [hcr]; exact htx⟩
  · -- the exit marker is seen
    clear h
    have hsems : s.sem_sender = 0 ∧ s.sem_receiver = 0 ∧ senderActive s.spc = 0 := by
      simp only [hpc, receiverActive] at token; omega
    obtain ⟨hss, hsr, hsa⟩ := hsems
    have hidle := senderIdle _ hsa
    obtain ⟨hjk, hemp, htx⟩ := rCheck hpc
    have hex := (strcmp_exit _).1 hcmp
    obtain ⟨_, _, hiff, hexp⟩ := texts_get lines hg.1 k _ htx
    have hkN := hiff.1 hex
    rw [if_pos hex] at hexp
    refine ⟨i, j, k + 1, ?_⟩
    constructor <;> first
      | assumption
      | (intro hx; dsimp only at hx; first
          | (simp at hx; done)
          | omega
          | (simp [hx] at hidle; done)
          | (rcases hx with hx | hx <;> simp [hx] at hidle <;> done))
      | (intro _; first
          | assumption
          | exact ⟨by omega, by assumption⟩
          | exact ⟨by omega, by omega⟩)
      | skip
    case hout =>
      show s.rout ++ [Output.senderExit] = (expected lines).take (k + 1)
      rw [List.take_succ, hexp, hout]
      rfl
    case rExit =>
      intro _
      exact ⟨by omega, by omega, hemp⟩
  · -- another text is seen
    clear h
    have hsems : s.sem_sender = 0 ∧ s.sem_receiver = 0 ∧ senderActive s.spc = 0 := by
      simp only [hpc, receiverActive] at token; omega
    obtain ⟨hss, hsr, hsa⟩ := hsems
    have hidle := senderIdle _ hsa
    obtain ⟨hjk, hemp, htx⟩ := rCheck hpc
    have hex : cstr s.recv.msgText ≠ EXIT_MARKER := by
      intro he
      rw [(strcmp_exit _).2 he] at hcmp
      exact absurd hcmp (by simp)
    obtain ⟨hle, _, hiff, hexp⟩ := texts_get lines hg.1 k _ htx
    have hkN : k ≠ lines.length := fun he => hex (hiff.2 he)
    rw [if_neg hex] at hexp
    refine ⟨i, j, k + 1, ?_⟩
    constructor <;> first
      | assumption
      | (intro hx; dsimp only at hx; first
          | (simp at hx; done)
          | omega
          | (simp [hx] at hidle; done)
          | (rcases hx with hx | hx <;> simp [hx] at hidle <;> done))
      | (intro _; first
          | assumption
          | exact ⟨by omega, by assumption⟩
          | exact ⟨by omega, by omega⟩)
      | skip
    case hout =>
      show s.rout ++ [Output.receiving (cstr s.recv.msgText)] = (expected lines).take (k + 1)
      rw [List.take_succ, hexp, hout]
      rfl
    case rRel =>
      intro _
      exact ⟨by omega, by omega, hemp⟩
  · -- the sender's turn is released
    clear h
    have hsems : s.sem_sender = 0 ∧ s.sem_receiver = 0 ∧ senderActive s.spc = 0 := by
      simp only [hpc, receiverActive] at token; omega
    obtain ⟨hss, hsr, hsa⟩ := hsems
    have hidle := senderIdle _ hsa
    obtain ⟨hkj, hkN, hemp⟩ := rRel hpc
    refine ⟨i, j, k, ?_⟩
    constructor <;> first
      | assumption
      | (intro hx; dsimp only at hx; first
          | (simp at hx; done)
          | omega
          | (simp [hx] at hidle; done)
          | (rcases hx with hx | hx <;> simp [hx] at hidle <;> done))
      | (intro _; first
          | assumption
          | exact ⟨by omega, by assumption⟩
          | exact ⟨by omega, by omega⟩)
      | skip
  · -- the sender's turn is released on the way out
    clear h
    have hsems : s.sem_sender = 0 ∧ s.sem_receiver = 0 ∧ senderActive s.spc = 0 := by
      simp only [hpc, receiverActive] at token; omega
    obtain ⟨hss, hsr, hsa⟩ := hsems
    have hidle := senderIdle _ hsa
    obtain ⟨hkj, hkN, hemp⟩ := rExit hpc
    refine ⟨i, j, k, ?_⟩
    constructor <;> first
      | assumption
      | (intro hx; dsimp only at hx; first
          | (simp at hx; done)
          | omega
          | (simp [hx] at hidle; done)
          | (rcases hx with hx | hx <;> simp [hx] at hidle <;> done))
      | (intro _; first
          | assumption
          | exact ⟨by omega, by assumption⟩
          | exact ⟨by omega, by omega⟩)
      | skip

theorem deliveryInv_reachable (mech q : Int) (b : Bool) (lines : List (List Nat))
    (hm : mech = MSG_PASSING ∨ mech = SHARED_MEM) (hg : GoodFile b lines)
    (smb rmb : mailbox_t) (w : World) (line msgText recvText : List Nat)
    (hs : MailboxReady mech q smb) (hr : MailboxReady mech q rmb)
    (hw : TransportEmpty mech q w) (hlen : msgText.length = MSG_TEXT_SIZE) :
    ∀ s, Reachable (initState smb rmb w (fileOf b lines) line msgText recvText) s →
      ∃ i j k, DeliveryInv mech q b lines s i j k := by
  apply reachable_induction
  · exact ⟨0, 0, 0, deliveryInv_init mech q b lines smb rmb w line msgText recvText hs hr hw hlen⟩
  · intro p s t hI hstep
    obtain ⟨i, j, k, hI⟩ := hI
    cases p with
    | sender => exact deliveryInv_sender mech q b lines hg s t i j k hI hstep
    | receiver => exact deliveryInv_receiver mech q b lines hm hg s t i j k hI hstep

theorem sender_blocked (s : State) (h : sender_step s = none) :
    ((s.spc = .acquire ∨ s.spc = .exitAcquire) ∧ s.sem_sender = 0) ∨ s.spc = .finished := by
  simp only [sender_step] at h
  split at h
  · split at h <;> simp at h
  · rename_i hpc
    split at h
    · simp at h
    · exact Or.inl ⟨Or.inl hpc, by omega⟩
  · simp at h
  · simp at h
  · rename_i hpc
    split at h
    · simp at h
    · exact Or.inl ⟨Or.inr hpc, by omega⟩
  · simp at h
  · simp at h
  · rename_i hpc
    exact Or.inr hpc

theorem receiver_blocked (s : State) (h : receiver_step s = none) :
    (s.rpc = .acquire ∧ s.sem_receiver = 0) ∨
      (s.rpc = .get ∧ receive s.recv s.rmailbox s.world = none) ∨ s.rpc = .finished := by
  simp only [receiver_step] at h
  split at h
  · rename_i hpc
    split at h
    · simp at h
    · exact Or.inl ⟨hpc, by omega⟩
  · rename_i hpc
    split at h
    · rename_i hr
      exact Or.inr (Or.inl ⟨hpc, hr⟩)
    · simp at h
  · split at h <;> simp at h
  · simp at h
  · simp at h
  · rename_i hpc
    exact Or.inr (Or.inr hpc)

theorem deliveryInv_terminal (mech q : Int) (b : Bool) (lines : List (List Nat))
    (hm : mech = MSG_PASSING ∨ mech = SHARED_MEM) (s : State) (i j k : Nat)
    (hI : DeliveryInv mech q b lines s i j k) (hT : Terminal s) :
    s.spc = .finished ∧ s.rpc = .finished ∧ k = lines.length + 1 := by
  have hS := sender_blocked s (hT .sender)
  have hR := receiver_blocked s (hT .receiver)
  have token := hI.token
  simp only [active] at token
  have hget : ¬ (s.rpc = .get ∧ receive s.recv s.rmailbox s.world = none) := by
    rintro ⟨hpc, hnone⟩
    obtain ⟨_, t0, _, hhold⟩ := hI.rGet hpc
    obtain ⟨r', w', hrecv', _⟩ := receive_holds mech q s.rmailbox s.world s.recv t0 hm hI.rmb hhold
    rw [hnone] at hrecv'
    exact absurd hrecv' (by simp)
  rcases hS with ⟨hspc, hss⟩ | hspc <;> rcases hR with ⟨hrpc, hsr⟩ | hr | hrpc
  · rcases hspc with hspc | hspc <;>
      · simp only [hspc, hrpc, senderActive, receiverActive] at token
        omega
  · exact absurd hr hget
  · have hk := hI.rFin hrpc
    have hpos : 0 < s.sem_receiver := by
      rcases hspc with hspc | hspc <;>
        · simp only [hspc, hrpc, senderActive, receiverActive] at token
          omega
    have hj := (hI.tR hpos).1
    have hi := hI.hi
    rcases hspc with hspc | hspc
    · have := (hI.sMsg (Or.inl hspc)).1
      omega
    · have := (hI.sExit (Or.inl hspc)).2
      omega
  · have hk := hI.rAcq hrpc
    have hpos : 0 < s.sem_sender := by
      simp only [hspc, hrpc, senderActive, receiverActive] at token
      omega
    have hj := (hI.tS hpos).1
    have := (hI.sFin (Or.inr hspc)).2
    omega
  · exact absurd hr hget
  · exact ⟨hspc, hrpc, hI.rFin hrpc⟩

/-! ## The claims -/

/-- C5: from the start of the loops with counts `sem_sender = 1` and
`sem_receiver = 0`, in every reachable state the two counts and the number of
processes between their `sem_wait` and their `sem_post` add up to 1, so at most
one process is active in the transport; and every step, from any state, keeps
that sum. -/
theorem at_most_one_active (smb rmb : mailbox_t) (w : World)
    (file line msgText recvText : List Nat) :
    (∀ s, Reachable (initState smb rmb w file line msgText recvText) s →
      s.sem_sender + s.sem_receiver + active s = 1 ∧ active s ≤ 1) ∧
    (∀ p s t, step p s = some t →
      t.sem_sender + t.sem_receiver + active t = s.sem_sender + s.sem_receiver + active s) := by
  refine ⟨?_, step_keeps_token⟩
  have key : ∀ s, Reachable (initState smb rmb w file line msgText recvText) s →
      s.sem_sender + s.sem_receiver + active s = 1 := by
    apply reachable_induction
    · rfl
    · intro p s t hs hstep
      rw [step_keeps_token p s t hstep]
      exact hs
  intro s hs
  have := key s hs
  exact ⟨this, by omega⟩

theorem statusInv_reachable (smb rmb : mailbox_t) (w : World)
    (file line msgText recvText : List Nat)
    (hs : smb.flag = SHARED_MEM ∧ smb.shm_addr ≠ 0)
    (hr : rmb.flag = SHARED_MEM ∧ rmb.shm_addr ≠ 0) (h0 : w.shm.status = 0) :
    ∀ s, Reachable (initState smb rmb w file line msgText recvText) s → StatusInv s := by
  apply reachable_induction
  · refine ⟨⟨hs.1, hs.2, hr.1, hr.2⟩, rfl, ?_⟩
    simp [initState, status, h0]
  · intro p s t hI hstep
    exact statusInv_step p s t hI hstep

/-- C6: in shared-memory mode, from the start of the loops with counts
`sem_sender = 1`, `sem_receiver = 0` and status 0, in every reachable state in
which the receiver is about to call `receive` the status word is not 0 (it is 1
or 2), and in every reachable state in which the sender is about to call `send`
the status word is not 1 (it is 0: the last text has been read). -/
theorem no_read_of_empty_no_write_of_full (smb rmb : mailbox_t) (w : World)
    (file line msgText recvText : List Nat)
    (hs : smb.flag = SHARED_MEM ∧ smb.shm_addr ≠ 0)
    (hr : rmb.flag = SHARED_MEM ∧ rmb.shm_addr ≠ 0) (h0 : w.shm.status = 0) :
    ∀ s, Reachable (initState smb rmb w file line msgText recvText) s →
      (s.rpc = .get → status s ≠ 0 ∧ (status s = 1 ∨ status s = 2)) ∧
      (s.spc = .put ∨ s.spc = .exitPut → status s ≠ 1 ∧ status s = 0) := by
  intro s hreach
  obtain ⟨_, _, _, h2, _, _, h5, _⟩ :=
    statusInv_reachable smb rmb w file line msgText recvText hs hr h0 s hreach
  constructor
  · intro hpc
    have := h5 hpc
    exact ⟨by omega, this⟩
  · intro hpc
    have := h2 hpc
    exact ⟨by omega, this⟩

theorem runSchedule_reachable (ps : List Proc) (s t : State) (h : runSchedule ps s = some t) :
    Reachable s t := by
  induction ps generalizing s with
  | nil =>
    simp only [runSchedule, Option.some.injEq] at h
    subst h
    exact Relation.ReflTransGen.refl
  | cons p ps ih =>
    simp only [runSchedule, Option.bind_eq_some] at h
    obtain ⟨u, hu, hrest⟩ := h
    exact Relation.ReflTransGen.head ⟨p, hu⟩ (ih u hrest)

theorem terminal_of_finished (s : State) (hs : s.spc = .finished) (hr : s.rpc = .finished) :
    Terminal s := by
  intro p
  cases p
  · simp [step, sender_step, hs]
  · simp [step, receiver_step, hr]

theorem completes_of_schedule (ps : List Proc) (s0 : State) (out : List Output)
    (h : (runSchedule ps s0).map (fun s => (s.spc, s.rpc, s.rout)) =
      some (.finished, .finished, out)) : Completes s0 out := by
  simp only [Option.map_eq_some', Prod.mk.injEq] at h
  obtain ⟨s, hrun, hs, hr, ho⟩ := h
  exact ⟨s, runSchedule_reachable ps s0 s hrun, terminal_of_finished s hs hr, ho⟩

/-- C1, as amended: for a file of lines that are text (no NUL), have at most 1150
characters and are not the exit marker, in both modes, every run of the two
loops from counts 1 and 0 is finite, the receiver's output is at every moment a
beginning of: one `Receiving message` per line, in file order, with the line cut
to 1023 characters, then one `Sender exit!`; when no process can step both have
finished and the output is exactly that; and such an end is reached.  For no
lines the output is the `Sender exit!` alone. -/
theorem delivers_lines_in_order (mech q : Int) (b : Bool) (lines : List (List Nat))
    (smb rmb : mailbox_t) (w : World) (line msgText recvText : List Nat)
    (hm : mech = MSG_PASSING ∨ mech = SHARED_MEM) (hg : GoodFile b lines)
    (hs : MailboxReady mech q smb) (hr : MailboxReady mech q rmb)
    (hw : TransportEmpty mech q w) (hlen : msgText.length = MSG_TEXT_SIZE) :
    (∀ s, Reachable (initState smb rmb w (fileOf b lines) line msgText recvText) s →
      Terminates s ∧ s.rout <+: expected lines ∧
      (Terminal s → s.rout = expected lines ∧ s.spc = .finished ∧ s.rpc = .finished)) ∧
    Completes (initState smb rmb w (fileOf b lines) line msgText recvText) (expected lines) ∧
    expected [] = [Output.senderExit] := by
  have hinv := deliveryInv_reachable mech q b lines hm hg smb rmb w line msgText recvText
    hs hr hw hlen
  have hterm : ∀ s, Reachable (initState smb rmb w (fileOf b lines) line msgText recvText) s →
      Terminal s → s.rout = expected lines ∧ s.spc = .finished ∧ s.rpc = .finished := by
    intro s hreach hT
    obtain ⟨i, j, k, hI⟩ := hinv s hreach
    obtain ⟨h1, h2, h3⟩ := deliveryInv_terminal mech q b lines hm s i j k hI hT
    refine ⟨?_, h1, h2⟩
    rw [hI.hout, h3, List.take_of_length_le]
    rw [expected_length]
  refine ⟨?_, ?_, rfl⟩
  · intro s hreach
    refine ⟨terminates_all s, ?_, hterm s hreach⟩
    obtain ⟨i, j, k, hI⟩ := hinv s hreach
    rw [hI.hout]
    exact List.take_prefix _ _
  · obtain ⟨t, hreach, hT⟩ :=
      exists_terminal (initState smb rmb w (fileOf b lines) line msgText recvText)
    exact ⟨t, hreach, hT, (hterm t hreach hT).1⟩

/-- C7, as amended: in shared-memory mode every step of a run that changes the
status word is the sender's `send` taking it from 0 to 1 (the text is not the
exit marker) or from 0 to 2 (the text is the exit marker), or the receiver's
`receive` taking it from 1 or 2 to 0. -/
theorem status_changes (smb rmb : mailbox_t) (w : World)
    (file line msgText recvText : List Nat)
    (hs : smb.flag = SHARED_MEM ∧ smb.shm_addr ≠ 0)
    (hr : rmb.flag = SHARED_MEM ∧ rmb.shm_addr ≠ 0) (h0 : w.shm.status = 0) :
    ∀ s p t, Reachable (initState smb rmb w file line msgText recvText) s →
      step p s = some t → status t ≠ status s →
        ActualChange p (status s) (status t) ∧
        (p = .sender → (s.spc = .put ∨ s.spc = .exitPut) ∧
          (status t = 2 ↔ cstr t.msg.msgText = EXIT_MARKER)) ∧
        (p = .receiver → s.rpc = .get) := by
  intro s p t hreach hstep hne
  obtain ⟨⟨hsf, hsa, hrf, hra⟩, _, _, h2, _, _, h5, _⟩ :=
    statusInv_reachable smb rmb w file line msgText recvText hs hr h0 s hreach
  cases p with
  | sender =>
    rcases sender_step_cases s t hstep with ⟨hpc, _, rfl⟩ | ⟨hpc, _, _, _, _, rfl⟩ |
      ⟨hpc, hpos, rfl⟩ | ⟨hpc, rfl⟩ | ⟨hpc, rfl⟩ | ⟨hpc, hpos, rfl⟩ | ⟨hpc, rfl⟩ | ⟨hpc, rfl⟩
    · exact absurd rfl hne
    · exact absurd rfl hne
    · exact absurd rfl hne
    · have hst := status_send s.msg s.smailbox s.world hsf hsa
      have hz := h2 (Or.inl hpc)
      simp only [status] at hz hne ⊢
      by_cases he : cstr s.msg.msgText = EXIT_MARKER
      · rw [if_pos he] at hst
        simp only [hst, hz, ActualChange]
        simp [hpc, he]
      · rw [if_neg he] at hst
        simp only [hst, hz, ActualChange]
        simp [hpc, he]
    · exact absurd rfl hne
    · exact absurd rfl hne
    · have hst := status_send (setText s.msg EXIT_MARKER) s.smailbox s.world hsf hsa
      have hz := h2 (Or.inr hpc)
      have he := cstr_exit_text s.msg
      rw [if_pos he] at hst
      simp only [status] at hz hne ⊢
      simp only [hst, hz, ActualChange]
      simp [hpc, he]
    · exact absurd rfl hne
  | receiver =>
    rcases receiver_step_cases s t hstep with ⟨hpc, hpos, rfl⟩ | ⟨hpc, r, w', hrecv, rfl⟩ |
      ⟨hpc, _, rfl⟩ | ⟨hpc, _, rfl⟩ | ⟨hpc, rfl⟩ | ⟨hpc, rfl⟩
    · exact absurd rfl hne
    · have hst := status_receive _ _ _ _ _ hrf hra hrecv
      have hz := h5 hpc
      simp only [status] at hz hne ⊢
      simp only [hst, ActualChange]
      rcases hz with hz | hz <;> simp [hz, hpc]
    · exact absurd rfl hne
    · exact absurd rfl hne
    · exact absurd rfl hne
    · exact absurd rfl hne

theorem goodFile_demo : GoodFile true [[104, 105]] := by
  refine ⟨?_, by simp⟩
  intro l hl
  simp only [List.mem_singleton] at hl
  subst hl
  refine ⟨by decide, by decide, by decide, by decide⟩

theorem shmBox_ready : MailboxReady SHARED_MEM 0 shmBox :=
  ⟨rfl, fun h => absurd h (by decide), fun _ => by decide⟩

theorem freshWorld_empty (mech : Int) : TransportEmpty mech 0 freshWorld := fun _ => rfl

/-- C1, witness: the file with the one line `hi` in shared-memory mode. -/
theorem delivers_lines_in_order_witness :
    GoodFile true [[104, 105]] ∧ MailboxReady SHARED_MEM 0 shmBox ∧
    TransportEmpty SHARED_MEM 0 freshWorld ∧
    ((∀ s, Reachable (startOn shmBox (fileOf true [[104, 105]])) s →
      Terminates s ∧ s.rout <+: expected [[104, 105]] ∧
      (Terminal s → s.rout = expected [[104, 105]] ∧ s.spc = .finished ∧ s.rpc = .finished)) ∧
    Completes (startOn shmBox (fileOf true [[104, 105]])) (expected [[104, 105]]) ∧
    expected [] = [Output.senderExit]) :=
  ⟨goodFile_demo, shmBox_ready, freshWorld_empty _,
    delivers_lines_in_order SHARED_MEM 0 true [[104, 105]] shmBox shmBox freshWorld
      (List.replicate LINE_SIZE 0) (List.replicate MSG_TEXT_SIZE 0)
      (List.replicate MSG_TEXT_SIZE 0) (Or.inr rfl) goodFile_demo shmBox_ready shmBox_ready
      (freshWorld_empty _) (by simp)⟩

theorem verbatim_longer (a : List Nat) (out : List Output) (h : out.length ≠ 2) :
    out ≠ expectedVerbatim [a] := by
  intro he
  rw [he] at h
  exact h rfl

set_option maxRecDepth 1000000 in
/-- C1, counterexample: three files of one line whose complete run does not
print that line and then `Sender exit!`.  A line that is the exit marker ends
the stream: the receiver prints `Sender exit!` alone.  A line of 1024
characters is printed cut to 1023.  A line of 1151 characters is read by two
calls of `fgets` and arrives as two texts, its first 1023 characters and the
empty text. -/
theorem one_line_not_delivered_verbatim :
    (Completes (startOn shmBox (fileOf true [EXIT_MARKER])) [Output.senderExit] ∧
      [Output.senderExit] ≠ expectedVerbatim [EXIT_MARKER]) ∧
    (Completes (startOn shmBox (fileOf true [List.replicate 1024 97]))
        [Output.receiving (List.replicate 1023 97), Output.senderExit] ∧
      [Output.receiving (List.replicate 1023 97), Output.senderExit] ≠
        expectedVerbatim [List.replicate 1024 97]) ∧
    (Completes (startOn queueBox (fileOf true [List.replicate 1151 97]))
        [Output.receiving (List.replicate 1023 97), Output.receiving [], Output.senderExit] ∧
      [Output.receiving (List.replicate 1023 97), Output.receiving [], Output.senderExit] ≠
        expectedVerbatim [List.replicate 1151 97]) := by
  refine ⟨⟨?_, ?_⟩, ⟨?_, ?_⟩, ⟨?_, ?_⟩⟩
  · exact completes_of_schedule
      ([.sender, .sender, .sender, .sender, .receiver, .receiver, .receiver, .receiver,
        .sender, .sender, .sender, .sender]) _ _ (by decide)
  · exact verbatim_longer _ _ (by decide)
  · exact completes_of_schedule (alternate 2) _ _ (by decide)
  · intro he
    have h1 : (List.replicate 1023 97).length = (List.replicate 1024 97).length := by
      simp only [expectedVerbatim, List.map_cons, List.map_nil, List.singleton_append,
        List.cons.injEq, Output.receiving.injEq, and_true] at he
      exact congrArg List.length he
    simp at h1
  · exact completes_of_schedule (alternate 3) _ _ (by decide)
  · exact verbatim_longer _ _ (by decide)

/-- C6, witness: shared-memory mode on the file with the one line `hi`, in the
state in which the receiver is about to call `receive` for that line. -/
theorem no_read_of_empty_no_write_of_full_witness :
    (shmBox.flag = SHARED_MEM ∧ shmBox.shm_addr ≠ 0) ∧ freshWorld.shm.status = 0 ∧
    ∃ s, Reachable (startOn shmBox [104, 105, 10]) s ∧ s.rpc = .get ∧
      ((s.rpc = .get → status s ≠ 0 ∧ (status s = 1 ∨ status s = 2)) ∧
        (s.spc = .put ∨ s.spc = .exitPut → status s ≠ 1 ∧ status s = 0)) := by
  refine ⟨⟨rfl, by decide⟩, rfl, ?_⟩
  have h : (runSchedule [.sender, .sender, .sender, .sender, .receiver]
      (startOn shmBox [104, 105, 10])).map (fun s => s.rpc) = some .get := by decide
  simp only [Option.map_eq_some'] at h
  obtain ⟨s, hrun, hpc⟩ := h
  exact ⟨s, runSchedule_reachable _ _ _ hrun, hpc,
    no_read_of_empty_no_write_of_full shmBox shmBox freshWorld [104, 105, 10]
      (List.replicate LINE_SIZE 0) (List.replicate MSG_TEXT_SIZE 0)
      (List.replicate MSG_TEXT_SIZE 0) ⟨rfl, by decide⟩ ⟨rfl, by decide⟩ rfl s
      (runSchedule_reachable _ _ _ hrun)⟩

/-- C7, witness: shared-memory mode on the file with the one line `hi`, at the
sender's `send` of that line, which takes the status word from 0 to 1. -/
theorem status_changes_witness :
    (shmBox.flag = SHARED_MEM ∧ shmBox.shm_addr ≠ 0) ∧ freshWorld.shm.status = 0 ∧
    ∃ s t, Reachable (startOn shmBox [104, 105, 10]) s ∧ step .sender s = some t ∧
      status s = 0 ∧ status t = 1 ∧
      (ActualChange .sender (status s) (status t) ∧
        (Proc.sender = .sender → (s.spc = .put ∨ s.spc = .exitPut) ∧
          (status t = 2 ↔ cstr t.msg.msgText = EXIT_MARKER)) ∧
        (Proc.sender = .receiver → s.rpc = .get)) := by
  refine ⟨⟨rfl, by decide⟩, rfl, ?_⟩
  have h : (runSchedule [.sender, .sender] (startOn shmBox [104, 105, 10])).bind
      (fun s => (step .sender s).map (fun t => (status s, status t))) = some (0, 1) := by
    decide
  simp only [Option.bind_eq_some, Option.map_eq_some', Prod.mk.injEq] at h
  obtain ⟨s, hrun, t, hstep, h1, h2⟩ := h
  exact ⟨s, t, runSchedule_reachable _ _ _ hrun, hstep, h1, h2,
    status_changes shmBox shmBox freshWorld [104, 105, 10]
      (List.replicate LINE_SIZE 0) (List.replicate MSG_TEXT_SIZE 0)
      (List.replicate MSG_TEXT_SIZE 0) ⟨rfl, by decide⟩ ⟨rfl, by decide⟩ rfl s .sender t
      (runSchedule_reachable _ _ _ hrun) hstep (by rw [h1, h2]; decide)⟩

/-- C7, counterexample: on the empty file in shared-memory mode the sender's
`send` of the exit marker takes the status word from 0 (Empty) to 2
(ExitSignaled), and the receiver's `receive` then takes it from 2 to 0; the
specification allows neither change. -/
theorem status_goes_empty_exit_empty :
    (∃ s t, Reachable (startOn shmBox []) s ∧ step .sender s = some t ∧
      status s = 0 ∧ status t = 2 ∧ ¬ ClaimedChange .sender (status s) (status t)) ∧
    (∃ s t, Reachable (startOn shmBox []) s ∧ step .receiver s = some t ∧
      status s = 2 ∧ status t = 0 ∧ ¬ ClaimedChange .receiver (status s) (status t)) := by
  constructor
  · have h : (runSchedule [.sender, .sender] (startOn shmBox [])).bind
        (fun s => (step .sender s).map (fun t => (status s, status t))) = some (0, 2) := by
      decide
    simp only [Option.bind_eq_some, Option.map_eq_some', Prod.mk.injEq] at h
    obtain ⟨s, hrun, t, hstep, h1, h2⟩ := h
    refine ⟨s, t, runSchedule_reachable _ _ _ hrun, hstep, h1, h2, ?_⟩
    rw [h1, h2]
    simp [ClaimedChange]
  · have h : (runSchedule [.sender, .sender, .sender, .sender, .receiver]
        (startOn shmBox [])).bind
        (fun s => (step .receiver s).map (fun t => (status s, status t))) = some (2, 0) := by
      decide
    simp only [Option.bind_eq_some, Option.map_eq_some', Prod.mk.injEq] at h
    obtain ⟨s, hrun, t, hstep, h1, h2⟩ := h
    refine ⟨s, t, runSchedule_reachable _ _ _ hrun, hstep, h1, h2, ?_⟩
    rw [h1, h2]
    simp [ClaimedChange]

/-! ## One text through the transport -/

theorem strncpyBytes_full (src : List Nat) (n : Nat) (h : n ≤ (cstr src).length) :
    strncpyBytes src n = (cstr src).take n := by
  rw [strncpyBytes_eq]
  have : ((cstr src).take n).length = n := by simp [h]
  simp [this]

theorem terminated_copy_full (dst src : List Nat) (n : Nat) (hd : dst.length = n + 1)
    (h : n ≤ (cstr src).length) :
    writeAt (strncpy dst src n) n [0] = (cstr src).take n ++ [0] := by
  rw [terminated_copy, strncpyBytes_full _ _ h, List.drop_of_length_le (by omega)]

theorem shm_copy_nul (r : ShmRegion) (msgText : List Nat) :
    (shm_copy r msgText).buf[SHM_TEXT_SIZE - 1]? = some 0 := by
  simp only [shm_copy]
  rw [terminated_copy, List.getElem?_append_right (by rw [strncpyBytes_length])]
  simp [strncpyBytes_length]

theorem shm_copy_frame (r : ShmRegion) (msgText : List Nat)
    (h : SHM_TEXT_SIZE ≤ r.buf.length) :
    (shm_copy r msgText).status = r.status ∧
    (shm_copy r msgText).buf.length = r.buf.length ∧
    (shm_copy r msgText).buf.drop SHM_TEXT_SIZE = r.buf.drop SHM_TEXT_SIZE := by
  refine ⟨rfl, ?_, ?_⟩
  · simp only [shm_copy]
    exact terminated_copy_length _ _ _ (by simp only [SHM_TEXT_SIZE] at h ⊢; omega)
  · simp only [shm_copy]
    rw [terminated_copy]
    have hl : (strncpyBytes msgText (SHM_TEXT_SIZE - 1) ++ [0]).length = SHM_TEXT_SIZE := by
      simp [strncpyBytes_length, SHM_TEXT_SIZE]
    have e : strncpyBytes msgText (SHM_TEXT_SIZE - 1) ++ 0 :: r.buf.drop (SHM_TEXT_SIZE - 1 + 1) =
        (strncpyBytes msgText (SHM_TEXT_SIZE - 1) ++ [0]) ++ r.buf.drop SHM_TEXT_SIZE := by
      simp [SHM_TEXT_SIZE]
    rw [e, List.drop_append_of_le_length (by omega), List.drop_of_length_le (by omega)]
    simp

/-- C3: in shared-memory mode with non-null addresses, after `send` the status
word is 2 when the text is the exit marker and 1 otherwise, and the buffer holds
the text cut to 1023 characters, with a NUL at index 1023; a `receive` after it
returns, leaves the status word 0 and the caller's message holds the string of
the buffer. -/
theorem shm_send_then_receive (msg recv : message_t) (smb rmb : mailbox_t) (w : World)
    (hs : smb.flag = SHARED_MEM ∧ smb.shm_addr ≠ 0)
    (hr : rmb.flag = SHARED_MEM ∧ rmb.shm_addr ≠ 0) :
    (send msg smb w).shm.status = (if cstr msg.msgText = EXIT_MARKER then 2 else 1) ∧
    cstr (send msg smb w).shm.buf = (cstr msg.msgText).take (SHM_TEXT_SIZE - 1) ∧
    (send msg smb w).shm.buf[SHM_TEXT_SIZE - 1]? = some 0 ∧
    ∃ r w', receive recv rmb (send msg smb w) = some (r, w') ∧ w'.shm.status = 0 ∧
      cstr r.msgText = cstr (send msg smb w).shm.buf ∧
      w'.shm.buf = (send msg smb w).shm.buf := by
  refine ⟨status_send msg smb w hs.1 hs.2, ?_, ?_, ?_⟩
  · rw [send_shm _ _ _ hs.1 hs.2]
    exact cstr_shm_copy _ _
  · rw [send_shm _ _ _ hs.1 hs.2]
    exact shm_copy_nul _ _
  · rw [receive_shm _ _ _ hr.1 hr.2]
    refine ⟨_, _, rfl, rfl, ?_, rfl⟩
    simp only []
    rw [cstr_terminated_copy, send_shm _ _ _ hs.1 hs.2]
    simp only [cstr_shm_copy]
    exact List.take_of_length_le (by simp [MSG_TEXT_SIZE, SHM_TEXT_SIZE])

/-- C3, witness: the text `hi` through the zero-filled segment. -/
theorem shm_send_then_receive_witness :
    (shmBox.flag = SHARED_MEM ∧ shmBox.shm_addr ≠ 0) ∧
    ((send hiMessage shmBox freshWorld).shm.status =
      (if cstr hiMessage.msgText = EXIT_MARKER then 2 else 1) ∧
    cstr (send hiMessage shmBox freshWorld).shm.buf =
      (cstr hiMessage.msgText).take (SHM_TEXT_SIZE - 1) ∧
    (send hiMessage shmBox freshWorld).shm.buf[SHM_TEXT_SIZE - 1]? = some 0 ∧
    ∃ r w', receive blankMessage shmBox (send hiMessage shmBox freshWorld) = some (r, w') ∧
      w'.shm.status = 0 ∧
      cstr r.msgText = cstr (send hiMessage shmBox freshWorld).shm.buf ∧
      w'.shm.buf = (send hiMessage shmBox freshWorld).shm.buf) :=
  ⟨⟨rfl, by decide⟩,
    shm_send_then_receive hiMessage blankMessage shmBox shmBox freshWorld
      ⟨rfl, by decide⟩ ⟨rfl, by decide⟩⟩

theorem writeAt_zero_full (dst x : List Nat) (h : dst.length ≤ x.length) :
    writeAt dst 0 x = x := by
  simp [writeAt, List.drop_of_length_le h]

theorem writeAt_last (t rest : List Nat) (n : Nat) (h : t.length = n) :
    writeAt (t ++ [0] ++ rest) n [0] = t ++ [0] ++ rest := by
  subst h
  simp [writeAt]

/-- A `receive` of a pending text of 1023 characters fills the caller's buffer
with exactly that text and a NUL. -/
theorem receive_exact (mech q : Int) (mb : mailbox_t) (w : World) (recv : message_t)
    (t : List Nat) (hm : mech = MSG_PASSING ∨ mech = SHARED_MEM)
    (hmb : MailboxReady mech q mb) (hh : TransportHolds mech q w t)
    (ht : t.length = MSG_TEXT_SIZE - 1) (hrl : recv.msgText.length = MSG_TEXT_SIZE) :
    ∃ r w', receive recv mb w = some (r, w') ∧ r.msgText = t ++ [0] := by
  obtain ⟨hf, hq, ha⟩ := hmb
  subst hf
  obtain ⟨hlen, h0, hqueue, hshm⟩ := hh
  rcases hm with h1 | h2
  · obtain ⟨hq1, hq2⟩ := hq h1
    have hw := hqueue h1
    have hsz : ¬ MSG_TEXT_SIZE < (t ++ [0]).length := by
      simp only [List.length_append, List.length_singleton, MSG_TEXT_SIZE] at hlen ⊢; omega
    rw [receive_queue _ _ _ h1 (hq1 ▸ hq2), hq1]
    simp only [msgrcv, hw, hsz, if_false]
    refine ⟨_, _, rfl, ?_⟩
    simp only []
    rw [writeAt_zero_full _ _ (by simp [hrl, ht, MSG_TEXT_SIZE])]
    have := writeAt_last t [] (MSG_TEXT_SIZE - 1) ht
    simpa using this
  · rw [receive_shm _ _ _ h2 (ha h2)]
    refine ⟨_, _, rfl, ?_⟩
    simp only []
    rw [terminated_copy_full _ _ _ (by rw [hrl]; rfl) (by rw [hshm h2, ht]), hshm h2,
      List.take_of_length_le (by rw [ht])]

theorem send_frame (msg : message_t) (mb : mailbox_t) (w : World)
    (h : SHM_TEXT_SIZE ≤ w.shm.buf.length) :
    (send msg mb w).shm.buf.length = w.shm.buf.length ∧
    (send msg mb w).shm.buf.drop SHM_TEXT_SIZE = w.shm.buf.drop SHM_TEXT_SIZE := by
  obtain ⟨_, h2, h3⟩ := shm_copy_frame w.shm msg.msgText h
  by_cases h1 : mb.flag = MSG_PASSING
  · by_cases hq : mb.msqid < 0
    · simp [send, h1, hq]
    · simp [send, h1, hq]
  · by_cases hs : mb.flag = SHARED_MEM
    · by_cases ha : mb.shm_addr = 0
      · have hne : SHARED_MEM ≠ MSG_PASSING := by decide
        simp [send, hs, ha, hne]
      · rw [send_shm _ _ _ hs ha]
        exact ⟨h2, h3⟩
    · simp [send, h1, hs]

theorem strnlen_le (b : List Nat) (n : Nat) : strnlen b n ≤ n := by
  unfold strnlen
  have h1 := cstr_length_le (b.take n)
  have h2 : (b.take n).length ≤ n := by simp
  omega

theorem send_pending (mech q : Int) (mb : mailbox_t) (w : World) (msg : message_t)
    (hmb : MailboxReady mech q mb) (he : TransportEmpty mech q w) (hty : msg.mType = 1) :
    OnePending mech q (send msg mb w) := by
  obtain ⟨hf, hq, _⟩ := hmb
  subst hf
  intro h1
  obtain ⟨hq1, hq2⟩ := hq h1
  have hw := he h1
  rw [send_queue _ _ _ h1 (hq1 ▸ hq2), hq1]
  refine ⟨⟨msg.mType, msg.msgText.take (strnlen msg.msgText (MSG_TEXT_SIZE - 1) + 1)⟩, ?_, ?_⟩
  · simp [msgsnd, hw, hty, setQueue]
  · have := strnlen_le msg.msgText (MSG_TEXT_SIZE - 1)
    simp only [List.length_take, MSG_TEXT_SIZE] at this ⊢
    omega

theorem receive_empties (mech q : Int) (mb : mailbox_t) (w w' : World) (recv r : message_t)
    (hmb : MailboxReady mech q mb) (hp : OnePending mech q w)
    (h : receive recv mb w = some (r, w')) : TransportEmpty mech q w' := by
  obtain ⟨hf, hq, _⟩ := hmb
  subst hf
  intro h1
  obtain ⟨hq1, hq2⟩ := hq h1
  obtain ⟨m, hw, hlen⟩ := hp h1
  rw [receive_queue _ _ _ h1 (hq1 ▸ hq2), hq1] at h
  simp only [msgrcv, hw, not_lt.2 hlen, if_false, Option.some.injEq, Prod.mk.injEq] at h
  rw [← h.2]
  simp [setQueue]

theorem prepare_mType (line : List Nat) (msg : message_t) (fp : List Nat) (line' : List Nat)
    (msg' : message_t) (fp' : List Nat) (h : prepare line msg fp = some (line', msg', fp')) :
    msg'.mType = msg.mType := by
  cases fp with
  | nil => simp [prepare, fgets] at h
  | cons c fp =>
    simp only [prepare, fgets, Option.some.injEq, Prod.mk.injEq] at h
    rw [← h.2.1]
    rfl

theorem emptyInv_step (mech q : Int) (p : Proc) (s t : State) (hI : EmptyInv mech q s)
    (h : step p s = some t) : EmptyInv mech q t := by
  obtain ⟨⟨hsm, hrm, hty⟩, hsum, h1, h2, h3, h4, h5, h6⟩ := hI
  have hsumt : t.sem_sender + t.sem_receiver + active t = 1 := by
    rw [step_keeps_token p s t h]; exact hsum
  cases p with
  | sender =>
    have hs1 : TransportEmpty mech q s.world →
        OnePending mech q (send s.msg s.smailbox s.world) :=
      fun he => send_pending mech q s.smailbox s.world s.msg hsm he hty
    have hs2 : TransportEmpty mech q s.world →
        OnePending mech q (send (setText s.msg EXIT_MARKER) s.smailbox s.world) :=
      fun he => send_pending mech q s.smailbox s.world _ hsm he
        (by rw [setText_mType]; exact hty)
    rcases sender_step_cases s t h with ⟨hpc, _, rfl⟩ | ⟨hpc, _, msg, _, hp, rfl⟩ |
      ⟨hpc, hpos, rfl⟩ | ⟨hpc, rfl⟩ | ⟨hpc, rfl⟩ | ⟨hpc, hpos, rfl⟩ | ⟨hpc, rfl⟩ | ⟨hpc, rfl⟩
    all_goals
      refine ⟨⟨hsm, hrm, by
        first
          | exact hty
          | (rw [setText_mType]; exact hty)
          | (rw [prepare_mType _ _ _ _ _ _ hp]; exact hty)⟩, hsumt, ?_⟩
      try clear hp
      clear h hsumt
      generalize send s.msg s.smailbox s.world = W1 at hs1 ⊢
      generalize send (setText s.msg EXIT_MARKER) s.smailbox s.world = W2 at hs2 ⊢
      simp only [active] at *
      cases hr : s.rpc <;>
        simp only [hpc, hr, senderActive, receiverActive] at hsum h2 h3 h5 h6 ⊢ <;>
        simp_all
  | receiver =>
    rcases receiver_step_cases s t h with ⟨hpc, hpos, rfl⟩ | ⟨hpc, r, w, hrecv, rfl⟩ |
      ⟨hpc, _, rfl⟩ | ⟨hpc, _, rfl⟩ | ⟨hpc, rfl⟩ | ⟨hpc, rfl⟩
    all_goals
      refine ⟨⟨hsm, hrm, hty⟩, hsumt, ?_⟩
      try have hs0 : OnePending mech q s.world → TransportEmpty mech q w :=
        fun hp => receive_empties mech q s.rmailbox s.world w s.recv r hrm hp hrecv
      try clear hrecv
      clear h hsumt
      simp only [active] at *
      cases hs : s.spc <;>
        simp only [hpc, hs, senderActive, receiverActive] at hsum h2 h3 h5 h6 ⊢ <;>
        simp_all

theorem emptyInv_reachable (mech q : Int) (smb rmb : mailbox_t) (w : World)
    (file line msgText recvText : List Nat)
    (hs : MailboxReady mech q smb) (hr : MailboxReady mech q rmb)
    (hw : TransportEmpty mech q w) :
    ∀ s, Reachable (initState smb rmb w file line msgText recvText) s → EmptyInv mech q s := by
  apply reachable_induction
  · refine ⟨⟨hs, hr, rfl⟩, rfl, ?_⟩
    simp [initState, hw]
  · intro p s t hI hstep
    exact emptyInv_step mech q p s t hI hstep

/-- C2, as amended: for a line of text (no NUL) of more than 1024 and at most
1150 characters, ended by a newline or by the end of the file, in both modes:
one preparation takes the whole line from the file, so the line gives one text;
the copy into the sender's message buffer gives the first 1023 characters of the
line and a NUL; after `send` on a transport with no text pending and `receive`,
the receiver's message buffer holds exactly these 1024 bytes; the copy into the
shared buffer leaves the status word, the length of the segment and every byte
after the 1024 payload bytes as they were, and so does the whole `send`.  And in
every run of the two loops that starts with no text pending, on any file, no
text is pending whenever the sender is about to call `send`. -/
theorem long_line_truncated (mech q : Int) (smb rmb : mailbox_t) (w : World)
    (l rest fp line : List Nat) (msg recv : message_t)
    (hm : mech = MSG_PASSING ∨ mech = SHARED_MEM)
    (hs : MailboxReady mech q smb) (hr : MailboxReady mech q rmb)
    (hw : TransportEmpty mech q w) (hbuf : SHM_TEXT_SIZE ≤ w.shm.buf.length)
    (h0 : ∀ c ∈ l, c ≠ 0) (hn : ∀ c ∈ l, c ≠ NL)
    (hlong : SHM_TEXT_SIZE < l.length) (hfit : l.length < LINE_SIZE - 1)
    (hshape : fp = l ++ NL :: rest ∨ (fp = l ∧ rest = []))
    (hty : msg.mType = 1) (hml : msg.msgText.length = MSG_TEXT_SIZE)
    (hrl : recv.msgText.length = MSG_TEXT_SIZE) :
    (∃ line', prepare line msg fp = some (line', setText msg line', rest) ∧
      (setText msg line').msgText = l.take (MSG_TEXT_SIZE - 1) ++ [0] ∧
      (∃ r w', receive recv rmb (send (setText msg line') smb w) = some (r, w') ∧
        r.msgText = l.take (MSG_TEXT_SIZE - 1) ++ [0]) ∧
      (shm_copy w.shm (setText msg line').msgText).status = w.shm.status ∧
      (shm_copy w.shm (setText msg line').msgText).buf.length = w.shm.buf.length ∧
      (shm_copy w.shm (setText msg line').msgText).buf.drop SHM_TEXT_SIZE =
        w.shm.buf.drop SHM_TEXT_SIZE ∧
      (send (setText msg line') smb w).shm.buf.length = w.shm.buf.length ∧
      (send (setText msg line') smb w).shm.buf.drop SHM_TEXT_SIZE =
        w.shm.buf.drop SHM_TEXT_SIZE) ∧
    (∀ (w0 : World) (file line0 msgText0 recvText0 : List Nat), TransportEmpty mech q w0 →
      ∀ s, Reachable (initState smb rmb w0 file line0 msgText0 recvText0) s →
        s.spc = .put ∨ s.spc = .exitPut → TransportEmpty mech q s.world) := by
  constructor
  · have hprep : ∃ line', prepare line msg fp = some (line', setText msg line', rest) ∧
        cstr line' = l.take (LINE_SIZE - 1) := by
      rcases hshape with hfp | ⟨hfp, hrest⟩
      · obtain ⟨line', hp, hc⟩ := prepare_line line msg l rest h0 hn
        rw [if_pos hfit] at hp
        exact ⟨line', hfp ▸ hp, hc⟩
      · have hne : l ≠ [] := by
          intro he
          rw [he] at hlong
          simp at hlong
        obtain ⟨line', hp, hc⟩ := prepare_last line msg l hne h0 hn
        rw [List.drop_of_length_le (Nat.le_of_lt hfit)] at hp
        exact ⟨line', by rw [hfp, hrest]; exact hp, hc⟩
    obtain ⟨line', hp, hc⟩ := hprep
    have hlen1 : (l.take (MSG_TEXT_SIZE - 1)).length = MSG_TEXT_SIZE - 1 := by
      simp only [List.length_take, MSG_TEXT_SIZE, SHM_TEXT_SIZE] at hlong ⊢; omega
    have hcl : MSG_TEXT_SIZE - 1 ≤ (cstr line').length := by
      rw [hc]
      simp only [List.length_take, MSG_TEXT_SIZE, SHM_TEXT_SIZE, LINE_SIZE] at hlong ⊢; omega
    have htake : (cstr line').take (MSG_TEXT_SIZE - 1) = l.take (MSG_TEXT_SIZE - 1) := by
      rw [hc, List.take_take]
      congr 1
    have htext : (setText msg line').msgText = l.take (MSG_TEXT_SIZE - 1) ++ [0] := by
      simp only [setText]
      rw [terminated_copy_full _ _ _ (by rw [hml]; rfl) hcl, htake]
    have h0t : ∀ c ∈ l.take (MSG_TEXT_SIZE - 1), c ≠ 0 :=
      fun c hc => h0 c (List.mem_of_mem_take hc)
    have hct : cstr (setText msg line').msgText = l.take (MSG_TEXT_SIZE - 1) := by
      rw [htext]
      exact cstr_append_zero _ _ h0t
    have hhold := send_holds mech q smb w (setText msg line') hs hw
      (by rw [setText_mType]; exact hty) (setText_length _ _ hml) (by rw [hct, hlen1])
    rw [hct] at hhold
    obtain ⟨r, w', hrecv, hr'⟩ := receive_exact mech q rmb _ recv _ hm hr hhold hlen1 hrl
    obtain ⟨f1, f2, f3⟩ := shm_copy_frame w.shm (setText msg line').msgText hbuf
    obtain ⟨g1, g2⟩ := send_frame (setText msg line') smb w hbuf
    exact ⟨line', hp, htext, ⟨r, w', hrecv, hr'⟩, f1, f2, f3, g1, g2⟩
  · intro w0 file line0 msgText0 recvText0 hw0 s hreach hpc
    obtain ⟨_, _, _, h2, _⟩ :=
      emptyInv_reachable mech q smb rmb w0 file line0 msgText0 recvText0 hs hr hw0 s hreach
    exact h2 hpc

theorem mem_replicate_ne (n a b : Nat) (h : a ≠ b) : ∀ c ∈ List.replicate n a, c ≠ b := by
  intro c hc
  rw [(List.mem_replicate.1 hc).2]
  exact h

theorem long_demo : SHM_TEXT_SIZE < (List.replicate 1025 97).length := by
  rw [List.length_replicate]
  decide

theorem freshWorld_room : SHM_TEXT_SIZE ≤ freshWorld.shm.buf.length := by
  show SHM_TEXT_SIZE ≤ (List.replicate SHM_TEXT_SIZE 0).length
  rw [List.length_replicate]

theorem hiMessage_length : hiMessage.msgText.length = MSG_TEXT_SIZE := by
  show ([104, 105] ++ List.replicate 1022 0).length = MSG_TEXT_SIZE
  rw [List.length_append, List.length_replicate]
  rfl

theorem blankMessage_length : blankMessage.msgText.length = MSG_TEXT_SIZE := by
  show (List.replicate 1024 0).length = MSG_TEXT_SIZE
  rw [List.length_replicate]
  rfl

theorem fits_demo : (List.replicate 1025 97).length < LINE_SIZE - 1 := by
  rw [List.length_replicate]
  decide

/-- C2, witness: a line of 1025 letters `a` and its newline in shared-memory
mode. -/
theorem long_line_truncated_witness :
    (SHM_TEXT_SIZE < (List.replicate 1025 97).length ∧
      (List.replicate 1025 97).length < LINE_SIZE - 1) ∧
    ((∀ c ∈ List.replicate 1025 97, c ≠ 0) ∧ ∀ c ∈ List.replicate 1025 97, c ≠ NL) ∧
    (MailboxReady SHARED_MEM 0 shmBox ∧ TransportEmpty SHARED_MEM 0 freshWorld ∧
      SHM_TEXT_SIZE ≤ freshWorld.shm.buf.length) ∧
    (hiMessage.mType = 1 ∧ hiMessage.msgText.length = MSG_TEXT_SIZE ∧
      blankMessage.msgText.length = MSG_TEXT_SIZE) ∧
    ((∃ line', prepare (List.replicate LINE_SIZE 0) hiMessage
        (List.replicate 1025 97 ++ NL :: []) = some (line', setText hiMessage line', []) ∧
      (setText hiMessage line').msgText = (List.replicate 1025 97).take (MSG_TEXT_SIZE - 1) ++ [0] ∧
      (∃ r w', receive blankMessage shmBox (send (setText hiMessage line') shmBox freshWorld) =
          some (r, w') ∧
        r.msgText = (List.replicate 1025 97).take (MSG_TEXT_SIZE - 1) ++ [0]) ∧
      (shm_copy freshWorld.shm (setText hiMessage line').msgText).status =
        freshWorld.shm.status ∧
      (shm_copy freshWorld.shm (setText hiMessage line').msgText).buf.length =
        freshWorld.shm.buf.length ∧
      (shm_copy freshWorld.shm (setText hiMessage line').msgText).buf.drop SHM_TEXT_SIZE =
        freshWorld.shm.buf.drop SHM_TEXT_SIZE ∧
      (send (setText hiMessage line') shmBox freshWorld).shm.buf.length =
        freshWorld.shm.buf.length ∧
      (send (setText hiMessage line') shmBox freshWorld).shm.buf.drop SHM_TEXT_SIZE =
        freshWorld.shm.buf.drop SHM_TEXT_SIZE) ∧
    (∀ (w0 : World) (file line0 msgText0 recvText0 : List Nat),
      TransportEmpty SHARED_MEM 0 w0 →
      ∀ s, Reachable (initState shmBox shmBox w0 file line0 msgText0 recvText0) s →
        s.spc = .put ∨ s.spc = .exitPut → TransportEmpty SHARED_MEM 0 s.world)) :=
  ⟨⟨long_demo, fits_demo⟩,
    ⟨mem_replicate_ne _ _ _ (by decide), mem_replicate_ne _ _ _ (by decide)⟩,
    ⟨shmBox_ready, freshWorld_empty _, freshWorld_room⟩,
    ⟨rfl, hiMessage_length, blankMessage_length⟩,
    long_line_truncated SHARED_MEM 0 shmBox shmBox freshWorld (List.replicate 1025 97) []
      (List.replicate 1025 97 ++ NL :: []) (List.replicate LINE_SIZE 0) hiMessage blankMessage
      (Or.inr rfl) shmBox_ready shmBox_ready (freshWorld_empty _) freshWorld_room
      (mem_replicate_ne _ _ _ (by decide)) (mem_replicate_ne _ _ _ (by decide)) long_demo
      fits_demo (Or.inl rfl) rfl hiMessage_length blankMessage_length⟩

theorem expected_two (a : List Nat) (out : List Output) (h : out.length ≠ 2) :
    out ≠ expected [a] := by
  intro he
  rw [he] at h
  exact h rfl

set_option maxRecDepth 1000000 in
/-- C2, counterexample: two lines of more than 1024 characters for which the
receiver does not obtain the first 1023 characters and a terminator alone.  A
line of 1200 letters `a`: `fgets` takes 1151 characters, the receiver obtains
the first 1023, and then the 49 characters that stayed unread as a second text
for the same line.  A line that is the letter `a`, a NUL byte and 1023 letters
`b`: `strlen` and `strncpy` stop at the NUL, and the receiver obtains the text
`a` alone. -/
theorem long_line_arrives_in_parts :
    (Completes (startOn shmBox (fileOf true [List.replicate 1200 97]))
        [Output.receiving (List.replicate 1023 97), Output.receiving (List.replicate 49 97),
          Output.senderExit] ∧
      [Output.receiving (List.replicate 1023 97), Output.receiving (List.replicate 49 97),
          Output.senderExit] ≠ expected [List.replicate 1200 97] ∧
      SHM_TEXT_SIZE < (List.replicate 1200 97).length) ∧
    (Completes (startOn shmBox (fileOf true [[97, 0] ++ List.replicate 1023 98]))
        [Output.receiving [97], Output.senderExit] ∧
      [Output.receiving [97], Output.senderExit] ≠
        expected [[97, 0] ++ List.replicate 1023 98] ∧
      SHM_TEXT_SIZE < ([97, 0] ++ List.replicate 1023 98).length) := by
  refine ⟨⟨?_, ?_, ?_⟩, ⟨?_, ?_, ?_⟩⟩
  · exact completes_of_schedule (alternate 3) _ _ (by decide)
  · exact expected_two _ _ (by decide)
  · rw [List.length_replicate]; decide
  · exact completes_of_schedule (alternate 2) _ _ (by decide)
  · intro he
    have h1 : ([97] : List Nat).length =
        (([97, 0] ++ List.replicate 1023 98).take (MSG_TEXT_SIZE - 1)).length := by
      simp only [expected, List.map_cons, List.map_nil, List.singleton_append,
        List.cons.injEq, Output.receiving.injEq, and_true] at he
      exact congrArg List.length he
    rw [List.length_take, List.length_append, List.length_replicate] at h1
    revert h1
    decide
  · rw [List.length_append, List.length_replicate]; decide

/-! ## Calls on a mailbox without a handle -/

/-- C9, as amended: `send` and `receive` on a mailbox in queue mode with a
negative queue id, or in shared-memory mode with a null address, change nothing:
no queue, no byte of the segment and not the caller's message.  The zero-filled
mailbox of `main` is such a mailbox in shared-memory mode. -/
theorem no_handle_no_effect (msg recv : message_t) (mb : mailbox_t) (w : World)
    (h : (mb.flag = MSG_PASSING ∧ mb.msqid < 0) ∨ (mb.flag = SHARED_MEM ∧ mb.shm_addr = 0)) :
    send msg mb w = w ∧ receive recv mb w = some (recv, w) ∧
    zeroShmBox.flag = SHARED_MEM ∧ zeroShmBox.shm_addr = 0 := by
  have hne : SHARED_MEM ≠ MSG_PASSING := by decide
  rcases h with ⟨hf, hq⟩ | ⟨hf, ha⟩
  · simp [send, receive, hf, hq, zeroShmBox]
  · simp [send, receive, hf, ha, hne, zeroShmBox]

/-- C9, witness: the zero-filled mailbox in shared-memory mode. -/
theorem no_handle_no_effect_witness :
    ((zeroShmBox.flag = MSG_PASSING ∧ zeroShmBox.msqid < 0) ∨
      (zeroShmBox.flag = SHARED_MEM ∧ zeroShmBox.shm_addr = 0)) ∧
    (send hiMessage zeroShmBox freshWorld = freshWorld ∧
      receive blankMessage zeroShmBox freshWorld = some (blankMessage, freshWorld) ∧
      zeroShmBox.flag = SHARED_MEM ∧ zeroShmBox.shm_addr = 0) :=
  ⟨Or.inr ⟨rfl, rfl⟩,
    no_handle_no_effect hiMessage blankMessage zeroShmBox freshWorld (Or.inr ⟨rfl, rfl⟩)⟩

/-- C9, counterexample: in queue mode the zero-filled mailbox of `main` holds the
queue id 0, which the guard `msqid < 0` lets through.  Where the queue 0 exists,
`send` puts the message on it, and `receive` takes a message from it and
overwrites the caller's buffer. -/
theorem zero_queue_id_is_used :
    zeroQueueBox = { flag := MSG_PASSING, msqid := 0, shm_addr := 0 } ∧
    freshWorld.queues 0 = some [] ∧
    (send hiMessage zeroQueueBox freshWorld).queues 0 = some [⟨1, [104, 105, 0]⟩] ∧
    pendingWorld.queues 0 = some [⟨1, [104, 105, 0]⟩] ∧
    (receive blankMessage zeroQueueBox pendingWorld).map
      (fun x => (x.2.queues 0, cstr x.1.msgText, x.1.mType)) =
        some (some [], [104, 105], 1) ∧
    cstr blankMessage.msgText = [] := by
  refine ⟨rfl, rfl, by decide, rfl, by decide, by decide⟩

/-! ## One cycle of the receiver -/

theorem receiver_step_acquire (s t : State) (hpc : s.rpc = .acquire)
    (h : receiver_step s = some t) :
    0 < s.sem_receiver ∧ t = { s with sem_receiver := s.sem_receiver - 1, rpc := .get } := by
  rcases receiver_step_cases s t h with ⟨_, hpos, ht⟩ | ⟨hx, _⟩ | ⟨hx, _⟩ | ⟨hx, _⟩ |
    ⟨hx, _⟩ | ⟨hx, _⟩
  · exact ⟨hpos, ht⟩
  all_goals simp [hpc] at hx

theorem receiver_step_get (s t : State) (hpc : s.rpc = .get)
    (h : receiver_step s = some t) :
    ∃ recv w, receive s.recv s.rmailbox s.world = some (recv, w) ∧
      t = { s with recv := recv, world := w, rpc := .check } := by
  rcases receiver_step_cases s t h with ⟨hx, _⟩ | ⟨_, r, w, hr, ht⟩ | ⟨hx, _⟩ | ⟨hx, _⟩ |
    ⟨hx, _⟩ | ⟨hx, _⟩
  · simp [hpc] at hx
  · exact ⟨r, w, hr, ht⟩
  all_goals simp [hpc] at hx

theorem receiver_step_check (s t : State) (hpc : s.rpc = .check)
    (h : receiver_step s = some t) :
    (strcmp_eq s.recv.msgText EXIT_MARKER = true ∧
      t = { s with rout := s.rout ++ [.senderExit], rpc := .exitRelease }) ∨
    (strcmp_eq s.recv.msgText EXIT_MARKER = false ∧
      t = { s with rout := s.rout ++ [.receiving (cstr s.recv.msgText)], rpc := .release }) := by
  rcases receiver_step_cases s t h with ⟨hx, _⟩ | ⟨hx, _⟩ | ⟨_, hc, ht⟩ | ⟨_, hc, ht⟩ |
    ⟨hx, _⟩ | ⟨hx, _⟩
  · simp [hpc] at hx
  · simp [hpc] at hx
  · exact Or.inl ⟨hc, ht⟩
  · exact Or.inr ⟨hc, ht⟩
  all_goals simp [hpc] at hx

theorem receiver_step_release (s t : State) (hpc : s.rpc = .release)
    (h : receiver_step s = some t) :
    t = { s with sem_sender := s.sem_sender + 1, rpc := .acquire } := by
  rcases receiver_step_cases s t h with ⟨hx, _⟩ | ⟨hx, _⟩ | ⟨hx, _⟩ | ⟨hx, _⟩ |
    ⟨_, ht⟩ | ⟨hx, _⟩
  case inr.inr.inr.inr.inl => exact ht
  all_goals simp [hpc] at hx

theorem receiver_step_exitRelease (s t : State) (hpc : s.rpc = .exitRelease)
    (h : receiver_step s = some t) :
    t = { s with sem_sender := s.sem_sender + 1, rpc := .finished } := by
  rcases receiver_step_cases s t h with ⟨hx, _⟩ | ⟨hx, _⟩ | ⟨hx, _⟩ | ⟨hx, _⟩ |
    ⟨hx, _⟩ | ⟨_, ht⟩
  case inr.inr.inr.inr.inr => exact ht
  all_goals simp [hpc] at hx

theorem receiver_step_posts (u v : State) (h : receiver_step u = some v) :
    v.sem_sender = u.sem_sender + postsAt u.rpc := by
  rcases receiver_step_cases u v h with ⟨hpc, _, rfl⟩ | ⟨hpc, _, _, _, rfl⟩ |
    ⟨hpc, _, rfl⟩ | ⟨hpc, _, rfl⟩ | ⟨hpc, rfl⟩ | ⟨hpc, rfl⟩ <;> simp [hpc, postsAt]

/-- C10, as amended: every step of the receiver raises `sem_sender` by one when
it is one of the two `sem_post(sem_sender)` calls and leaves it otherwise.  In a
cycle that starts at `sem_wait(sem_receiver)` and runs through, `sem_sender` is
as at the start of the cycle after the `sem_wait`, after the `receive` and after
the printed line; the one `sem_post(sem_sender)` is the last step of the cycle,
in the exit branch after `Sender exit!` when the text received is the exit
marker (the receiver then leaves the loop) and after the printed text otherwise
(the receiver is then back at its `sem_wait`).  So the cycle raises `sem_sender`
by exactly one, the cycle of the exit marker too, and takes `sem_receiver` down
by one. -/
theorem receiver_cycle_posts_once (s t : State) (hpc : s.rpc = .acquire)
    (h : receiver_cycle s = some t) :
    (t.sem_sender = s.sem_sender + 1 ∧ t.sem_receiver + 1 = s.sem_receiver ∧
      ((cstr t.recv.msgText = EXIT_MARKER ∧ t.rpc = .finished ∧
          t.rout = s.rout ++ [Output.senderExit]) ∨
        (cstr t.recv.msgText ≠ EXIT_MARKER ∧ t.rpc = .acquire ∧
          t.rout = s.rout ++ [Output.receiving (cstr t.recv.msgText)]))) ∧
    CycleTrace s t ∧
    (∀ u v, receiver_step u = some v → v.sem_sender = u.sem_sender + postsAt u.rpc) := by
  simp only [receiver_cycle, runSchedule, Option.bind_eq_some, step, Option.some.injEq] at h
  obtain ⟨s1, h1, s2, h2, s3, h3, s4, h4, rfl⟩ := h
  obtain ⟨hpos, e1⟩ := receiver_step_acquire s s1 hpc h1
  subst e1
  obtain ⟨r, w, hrecv, e2⟩ := receiver_step_get _ s2 rfl h2
  subst e2
  rcases receiver_step_check _ s3 rfl h3 with ⟨hcmp, e3⟩ | ⟨hcmp, e3⟩
  · subst e3
    have e4 := receiver_step_exitRelease _ s4 rfl h4
    subst e4
    have hex : cstr r.msgText = EXIT_MARKER := (strcmp_exit _).1 hcmp
    refine ⟨⟨rfl, by simp only []; omega, Or.inl ⟨hex, rfl, rfl⟩⟩, ?_, receiver_step_posts⟩
    exact ⟨_, _, _, h1, h2, h3, h4, ⟨rfl, by simp only []; omega, rfl⟩,
      ⟨rfl, hrecv, rfl, rfl⟩, ⟨rfl, rfl, rfl, rfl, Or.inl ⟨hex, rfl, rfl⟩⟩,
      ⟨rfl, rfl, rfl, rfl, rfl, Or.inl ⟨rfl, rfl⟩⟩⟩
  · subst e3
    have e4 := receiver_step_release _ s4 rfl h4
    subst e4
    have hne : cstr r.msgText ≠ EXIT_MARKER := by
      intro he
      simp only [] at hcmp
      rw [(strcmp_exit _).2 he] at hcmp
      exact absurd hcmp (by simp)
    refine ⟨⟨rfl, by simp only []; omega, Or.inr ⟨hne, rfl, rfl⟩⟩, ?_, receiver_step_posts⟩
    exact ⟨_, _, _, h1, h2, h3, h4, ⟨rfl, by simp only []; omega, rfl⟩,
      ⟨rfl, hrecv, rfl, rfl⟩, ⟨rfl, rfl, rfl, rfl, Or.inr ⟨hne, rfl, rfl⟩⟩,
      ⟨rfl, rfl, rfl, rfl, rfl, Or.inr ⟨rfl, rfl⟩⟩⟩

/-- C10, witness: the cycle of the receiver that takes the text `hi`. -/
theorem receiver_cycle_posts_once_witness :
    ∃ s t, s.rpc = .acquire ∧ receiver_cycle s = some t ∧
      ((t.sem_sender = s.sem_sender + 1 ∧ t.sem_receiver + 1 = s.sem_receiver ∧
        ((cstr t.recv.msgText = EXIT_MARKER ∧ t.rpc = .finished ∧
            t.rout = s.rout ++ [Output.senderExit]) ∨
          (cstr t.recv.msgText ≠ EXIT_MARKER ∧ t.rpc = .acquire ∧
            t.rout = s.rout ++ [Output.receiving (cstr t.recv.msgText)]))) ∧
      CycleTrace s t ∧
      (∀ u v, receiver_step u = some v → v.sem_sender = u.sem_sender + postsAt u.rpc)) := by
  have h : ((runSchedule [.sender, .sender, .sender, .sender]
      (startOn shmBox [104, 105, 10])).bind
        (fun s => (receiver_cycle s).map (fun _ => s.rpc))) = some .acquire := by decide
  simp only [Option.bind_eq_some, Option.map_eq_some'] at h
  obtain ⟨s, _, t, hcycle, hpc⟩ := h
  exact ⟨s, t, hpc, hcycle, receiver_cycle_posts_once s t hpc hcycle⟩

/-- C10, counterexample: on the empty file the sender sends the exit marker; in
the cycle in which the receiver takes it, `sem_sender` goes from 0 to 1: the one
`sem_post(sem_sender)` of the exit branch, not two. -/
theorem exit_cycle_posts_once :
    (runSchedule [.sender, .sender, .sender, .sender] (startOn shmBox [])).map
      (fun s => (s.sem_sender, s.rpc, cstr s.world.shm.buf)) =
        some (0, .acquire, EXIT_MARKER) ∧
    ((runSchedule [.sender, .sender, .sender, .sender] (startOn shmBox [])).bind
      receiver_cycle).map (fun t => (t.sem_sender, t.rpc, t.rout, cstr t.recv.msgText)) =
        some (1, .finished, [Output.senderExit], EXIT_MARKER) := by
  constructor <;> decide

/-! ## The setup -/

/-- C4: for the selector 3 the sender's `main` returns 0 and the receiver's
`main` returns 1, both without a system call: the kernel objects and the
semaphores are as before. -/
theorem selector_three_exit_codes (sys : Sys) (w : World) (sems : Sems) :
    sender_setup sys 3 w sems = .returned 0 w sems ∧
    receiver_setup sys 3 w sems = .returned 1 w sems := by
  have h1 : (3 : Int) ≠ MSG_PASSING := by decide
  have h2 : (3 : Int) ≠ SHARED_MEM := by decide
  simp [sender_setup, receiver_setup, h1, h2]

theorem open_or_create_sem_eq (name : String) (initial : Nat) (x : Sems) :
    open_or_create_sem name initial x =
      match x name with
      | none => (some name, 1, setSem x name initial)
      | some _ => (some name, 0, x) := by
  unfold open_or_create_sem sem_open_excl
  cases hx : x name with
  | none => simp
  | some c =>
    simp only [ne_eq, not_true_eq_false, if_false]
    simp [sem_open_existing, hx]

theorem setSem_same (x : Sems) (name : String) (v : Nat) : setSem x name v name = some v := by
  simp [setSem]

theorem setSem_other (x : Sems) (name other : String) (v : Nat) (h : other ≠ name) :
    setSem x name v other = x other := by
  simp [setSem, h]

theorem open_absent (mb : mailbox_t) (w : World) (x : Sems)
    (hS : x SEM_SENDER_NAME = none) (hR : x SEM_RECEIVER_NAME = none) :
    sender_open_sems mb w x =
      .ready mb w (setSem (setSem x SEM_SENDER_NAME 1) SEM_RECEIVER_NAME 0) ∧
    receiver_open_sems mb w x =
      .ready mb w (setSem (setSem x SEM_SENDER_NAME 1) SEM_RECEIVER_NAME 0) := by
  have hne : SEM_RECEIVER_NAME ≠ SEM_SENDER_NAME := by decide
  have h2 : setSem x SEM_SENDER_NAME 1 SEM_RECEIVER_NAME = none := by
    rw [setSem_other _ _ _ _ hne, hR]
  constructor
  · unfold sender_open_sems
    rw [open_or_create_sem_eq, hS]
    simp only []
    rw [open_or_create_sem_eq, h2]
  · unfold receiver_open_sems
    rw [open_or_create_sem_eq, hS]
    simp only []
    rw [open_or_create_sem_eq, h2]

theorem open_present (mb : mailbox_t) (w : World) (y : Sems) (a c : Nat)
    (hS : y SEM_SENDER_NAME = some a) (hR : y SEM_RECEIVER_NAME = some c) :
    sender_open_sems mb w y = .ready mb w y ∧ receiver_open_sems mb w y = .ready mb w y := by
  constructor
  · unfold sender_open_sems
    rw [open_or_create_sem_eq, hS]
    simp only []
    rw [open_or_create_sem_eq, hR]
  · unfold receiver_open_sems
    rw [open_or_create_sem_eq, hS]
    simp only []
    rw [open_or_create_sem_eq, hR]

/-- C8: `open_or_create_sem` on a name that is absent creates the semaphore with
the count `initial` and sets `*is_creator = 1`; on a name that exists it returns
the semaphore with its count as it is and `*is_creator = 0`.  When neither name
exists, after the sender and then the receiver have opened both names, and
equally after the receiver and then the sender have, the counts are
`sem_sender = 1` and `sem_receiver = 0`; the second process changes nothing. -/
theorem open_or_create_if_absent (sems : Sems) (mbS mbR : mailbox_t) (w : World)
    (hS : sems SEM_SENDER_NAME = none) (hR : sems SEM_RECEIVER_NAME = none) :
    (∀ name initial (x : Sems), x name = none →
      open_or_create_sem name initial x = (some name, 1, setSem x name initial) ∧
      setSem x name initial name = some initial) ∧
    (∀ name initial (x : Sems) c, x name = some c →
      open_or_create_sem name initial x = (some name, 0, x)) ∧
    (∃ y, sender_open_sems mbS w sems = .ready mbS w y ∧
      receiver_open_sems mbR w y = .ready mbR w y ∧
      y SEM_SENDER_NAME = some 1 ∧ y SEM_RECEIVER_NAME = some 0) ∧
    (∃ y, receiver_open_sems mbR w sems = .ready mbR w y ∧
      sender_open_sems mbS w y = .ready mbS w y ∧
      y SEM_SENDER_NAME = some 1 ∧ y SEM_RECEIVER_NAME = some 0) := by
  have hne : SEM_SENDER_NAME ≠ SEM_RECEIVER_NAME := by decide
  have y1 : setSem (setSem sems SEM_SENDER_NAME 1) SEM_RECEIVER_NAME 0 SEM_SENDER_NAME
      = some 1 := by
    rw [setSem_other _ _ _ _ hne, setSem_same]
  have y2 : setSem (setSem sems SEM_SENDER_NAME 1) SEM_RECEIVER_NAME 0 SEM_RECEIVER_NAME
      = some 0 := setSem_same _ _ _
  refine ⟨?_, ?_, ?_, ?_⟩
  · intro name initial x hx
    rw [open_or_create_sem_eq, hx]
    exact ⟨rfl, setSem_same _ _ _⟩
  · intro name initial x c hx
    rw [open_or_create_sem_eq, hx]
  · exact ⟨_, (open_absent mbS w sems hS hR).1, (open_present mbR w _ 1 0 y1 y2).2, y1, y2⟩
  · exact ⟨_, (open_absent mbR w sems hS hR).2, (open_present mbS w _ 1 0 y1 y2).1, y1, y2⟩

/-- C8, witness: no semaphore exists at the start. -/
theorem open_or_create_if_absent_witness :
    noSems SEM_SENDER_NAME = none ∧ noSems SEM_RECEIVER_NAME = none ∧
    ((∀ name initial (x : Sems), x name = none →
      open_or_create_sem name initial x = (some name, 1, setSem x name initial) ∧
      setSem x name initial name = some initial) ∧
    (∀ name initial (x : Sems) c, x name = some c →
      open_or_create_sem name initial x = (some name, 0, x)) ∧
    (∃ y, sender_open_sems shmBox freshWorld noSems = .ready shmBox freshWorld y ∧
      receiver_open_sems shmBox freshWorld y = .ready shmBox freshWorld y ∧
      y SEM_SENDER_NAME = some 1 ∧ y SEM_RECEIVER_NAME = some 0) ∧
    (∃ y, receiver_open_sems shmBox freshWorld noSems = .ready shmBox freshWorld y ∧
      sender_open_sems shmBox freshWorld y = .ready shmBox freshWorld y ∧
      y SEM_SENDER_NAME = some 1 ∧ y SEM_RECEIVER_NAME = some 0)) :=
  ⟨rfl, rfl, open_or_create_if_absent noSems shmBox shmBox freshWorld rfl rfl⟩

end Mailbox
